import Mathlib

/-!
Verification of the modesto warehouse geometry generator.

The definitions below are shallow embeddings of the JavaScript sources:
`modelt/scripts/generate-svg.js` (turtle-graphics conversion, corner
classification, wall and partition-wall emission, SVG assembly) and the
browser-side ModelT parser/builder (embedded-JSON parsing, wall profiles
with door cutouts, door meshes).  JavaScript numbers are modelled as
rationals; JavaScript exceptions are modelled with `Except`.
-/

set_option maxHeartbeats 1000000

namespace Modesto

/-- A 2D point in feet, origin at the facility northwest corner,
x increasing east and y increasing south. -/
structure Point where
  x : ℚ
  y : ℚ
deriving DecidableEq, Repr

/-- A turtle move: a direction string and a length in feet. -/
structure Segment where
  direction : String
  length : ℚ
deriving DecidableEq, Repr

/-- The fatal errors thrown by the generator (`throw new Error(...)` sites). -/
inductive GenError where
  | invalidDirection (dir : String)
  | diagonalMovement (a b : Point)
  | missingStartPosition (label : String)
  | shapeUnderspecified (label : String)
deriving DecidableEq, Repr

/-- The default point used to read list entries (indices are always in
bounds at every call site, mirroring the JavaScript array accesses). -/
def origin : Point := ⟨0, 0⟩

/-- The closed-shape closing tolerance, 0.001 ft. -/
def closeTolerance : ℚ := 1/1000

/-- `Math.abs` on rationals (kept definitionally reducible). -/
def qabs (q : ℚ) : ℚ := if q < 0 then -q else q

/-- `Math.min` on rationals. -/
def qmin (a b : ℚ) : ℚ := if a ≤ b then a else b

/-- `Math.max` on rationals. -/
def qmax (a b : ℚ) : ℚ := if a ≤ b then b else a

/-- One step of the `switch (direction)` in `turtleToCorners`:
`none` models the `default: throw` branch. -/
def moveDir (p : Point) (dir : String) (len : ℚ) : Option Point :=
  if dir = "north" then some ⟨p.x, p.y - len⟩
  else if dir = "south" then some ⟨p.x, p.y + len⟩
  else if dir = "east" then some ⟨p.x + len, p.y⟩
  else if dir = "west" then some ⟨p.x - len, p.y⟩
  else none

/-- The accumulation loop of `turtleToCorners`: the list of positions
pushed after each segment (the start point itself excluded). -/
def replaySegments (cur : Point) : List Segment → Except GenError (List Point)
  | [] => .ok []
  | seg :: rest =>
    match moveDir cur seg.direction seg.length with
    | none => .error (.invalidDirection seg.direction)
    | some next => (replaySegments next rest).map (fun pts => next :: pts)

/-- `turtleToCorners(start, segments)` from generate-svg.js: replay the
segments from `start`, then drop the last corner when it closes back to
`start` within the 0.001 ft tolerance on both axes. -/
def turtleToCorners (start : Point) (segments : List Segment) :
    Except GenError (List Point) :=
  (replaySegments start segments).map (fun pts =>
    let corners := start :: pts
    let lastCorner := corners.getLast (List.cons_ne_nil _ _)
    if qabs (lastCorner.x - start.x) < closeTolerance ∧
        qabs (lastCorner.y - start.y) < closeTolerance then
      corners.dropLast
    else corners)

/-- The loop body of `cornersToTurtle`: classify the displacement from
`current` to `next` as an axis-aligned segment or fail on a diagonal. -/
def pairToSegment (current next : Point) : Except GenError Segment :=
  let dx := next.x - current.x
  let dy := next.y - current.y
  if qabs dx < closeTolerance then
    .ok (if dy > 0 then ⟨"south", dy⟩ else ⟨"north", -dy⟩)
  else if qabs dy < closeTolerance then
    .ok (if dx > 0 then ⟨"east", dx⟩ else ⟨"west", -dx⟩)
  else
    .error (.diagonalMovement current next)

/-- The index loop of `cornersToTurtle`, with `first` the wrap-around
target of the final pair (`corners[(i + 1) % corners.length]`). -/
def cornersToTurtleFrom (first : Point) : List Point → Except GenError (List Segment)
  | [] => .ok []
  | [c] => (pairToSegment c first).map (fun s => [s])
  | c :: next :: rest => do
      let s ← pairToSegment c next
      let ss ← cornersToTurtleFrom first (next :: rest)
      pure (s :: ss)

/-- `cornersToTurtle(corners)` from generate-svg.js. -/
def cornersToTurtle : List Point → Except GenError (List Segment)
  | [] => .ok []
  | c :: rest => cornersToTurtleFrom c (c :: rest)

/-- `corners[(index - 1 + corners.length) % corners.length]`. -/
def prevCorner (corners : List Point) (index : ℕ) : Point :=
  corners.getD ((index + corners.length - 1) % corners.length) origin

/-- `corners[(index + 1) % corners.length]`. -/
def nextCorner (corners : List Point) (index : ℕ) : Point :=
  corners.getD ((index + 1) % corners.length) origin

/-- The z-component of the cross product of the vectors prev→current and
current→next computed by `isInteriorCorner`. -/
def cornerCross (corners : List Point) (index : ℕ) : ℚ :=
  let prev := prevCorner corners index
  let current := corners.getD index origin
  let next := nextCorner corners index
  let v1x := current.x - prev.x
  let v1y := current.y - prev.y
  let v2x := next.x - current.x
  let v2y := next.y - current.y
  v1x * v2y - v1y * v2x

/-- `isInteriorCorner(corners, index)`: for the clockwise traversal a
negative cross product is an interior (concave) corner. -/
def isInteriorCorner (corners : List Point) (index : ℕ) : Bool :=
  decide (cornerCross corners index < 0)

/-- The `exteriorCornerMap` lookup table of `inferCornerType`. -/
def exteriorCornerMap (key : String) : Option String :=
  if key = "East-South" then some "NE"
  else if key = "South-West" then some "SE"
  else if key = "West-North" then some "SW"
  else if key = "North-East" then some "NW"
  else none

/-- The `interiorCornerMap` lookup table of `inferCornerType`. -/
def interiorCornerMap (key : String) : Option String :=
  if key = "East-North" then some "SE"
  else if key = "North-West" then some "NE"
  else if key = "West-South" then some "NW"
  else if key = "South-East" then some "SW"
  else none

/-- `inferCornerType(corners, index, isInterior)`: the first corner is
always `NW`; otherwise look up the (incoming, outgoing) direction pair,
defaulting to `NW` for unmapped combinations. -/
def inferCornerType (corners : List Point) (index : ℕ) (isInterior : Bool) : String :=
  if index = 0 then "NW"
  else
    let prev := prevCorner corners index
    let current := corners.getD index origin
    let next := nextCorner corners index
    let incomingDir :=
      if current.x > prev.x then "East"
      else if current.x < prev.x then "West"
      else if current.y > prev.y then "South"
      else "North"
    let outgoingDir :=
      if next.x > current.x then "East"
      else if next.x < current.x then "West"
      else if next.y > current.y then "South"
      else "North"
    let key := incomingDir ++ "-" ++ outgoingDir
    if isInterior then (interiorCornerMap key).getD "NW"
    else (exteriorCornerMap key).getD "NW"

/-- `getCornerPosition(x, y, type, isInterior)`: where the 1×1 corner
piece is translated to. -/
def getCornerPosition (x y : ℚ) (type : String) (isInterior : Bool) : Point :=
  if isInterior then
    if type = "NW" then ⟨x - 1, y - 1⟩
    else if type = "NE" then ⟨x, y - 1⟩
    else if type = "SE" then ⟨x, y⟩
    else ⟨x - 1, y⟩
  else
    if type = "NW" then ⟨x, y⟩
    else if type = "NE" then ⟨x - 1, y⟩
    else if type = "SE" then ⟨x - 1, y - 1⟩
    else ⟨x, y - 1⟩

/-- `getInteriorPoint(x, y, type, isInterior)`. -/
def getInteriorPoint (x y : ℚ) (type : String) (isInterior : Bool) : Point :=
  if isInterior then
    if type = "NW" then ⟨x - 1, y - 1⟩
    else if type = "NE" then ⟨x + 1, y - 1⟩
    else if type = "SE" then ⟨x + 1, y + 1⟩
    else ⟨x - 1, y + 1⟩
  else
    if type = "NW" then ⟨x + 1, y + 1⟩
    else if type = "NE" then ⟨x - 1, y + 1⟩
    else if type = "SE" then ⟨x - 1, y - 1⟩
    else ⟨x + 1, y - 1⟩

/-- One entry of the `cornerData` array computed by `generateWalls`. -/
structure CornerInfo where
  slabX : ℚ
  slabY : ℚ
  type : String
  isInterior : Bool
  pieceX : ℚ
  pieceY : ℚ
  interiorX : ℚ
  interiorY : ℚ
deriving DecidableEq, Repr

/-- The `corners.map((corner, index) => ...)` pass of `generateWalls`. -/
def cornerData (corners : List Point) : List CornerInfo :=
  (List.range corners.length).map (fun index =>
    let corner := corners.getD index origin
    let isInterior := isInteriorCorner corners index
    let type := inferCornerType corners index isInterior
    let position := getCornerPosition corner.x corner.y type isInterior
    let interiorPoint := getInteriorPoint corner.x corner.y type isInterior
    { slabX := corner.x, slabY := corner.y, type := type, isInterior := isInterior,
      pieceX := position.x, pieceY := position.y,
      interiorX := interiorPoint.x, interiorY := interiorPoint.y })

/-- A straight wall run passed to `generateHorizontalWall` /
`generateVerticalWall`: orientation, the fixed cross coordinate (y for
horizontal, x for vertical), the start along the axis, and the length. -/
structure Run where
  horizontal : Bool
  fixedCoord : ℚ
  runStart : ℚ
  runLength : ℚ
deriving DecidableEq, Repr

/-- The consecutive-pairs walk `(i, (i + 1) % n)` over a list. -/
def cyclePairs {α : Type} : List α → List (α × α)
  | [] => []
  | a :: rest => (a :: rest).zip (rest ++ [a])

/-- The straight-run computation between two corner-piece positions in
`generateWalls`: the run spans the gap between the facing edges of the
two 1×1 corner pieces and is emitted only when its length is positive. -/
def wallRunBetween (c1 c2 : Point) : Option Run :=
  if c1.y = c2.y then
    let leftX := qmin c1.x c2.x
    let rightX := qmax c1.x c2.x
    let wallStart := leftX + 1
    let wallEnd := rightX
    let wallLength := wallEnd - wallStart
    if wallLength > 0 then some ⟨true, c1.y, wallStart, wallLength⟩ else none
  else if c1.x = c2.x then
    let topY := qmin c1.y c2.y
    let bottomY := qmax c1.y c2.y
    let wallStart := topY + 1
    let wallEnd := bottomY
    let wallLength := wallEnd - wallStart
    if wallLength > 0 then some ⟨false, c1.x, wallStart, wallLength⟩ else none
  else none

/-- The straight runs emitted by `generateWalls` for a closed shape. -/
def wallRuns (corners : List Point) : List Run :=
  let pieces := (cornerData corners).map (fun c => Point.mk c.pieceX c.pieceY)
  (cyclePairs pieces).filterMap (fun p => wallRunBetween p.1 p.2)

/-- The polygon perimeter: the summed (axis-aligned) lengths of all
consecutive corner-to-corner displacements, last wrapping to first. -/
def perimeterOf (corners : List Point) : ℚ :=
  ((cyclePairs corners).map (fun p => qabs (p.2.x - p.1.x) + qabs (p.2.y - p.1.y))).sum

/-- An open partition wall: a start point and a turtle path. -/
structure PartitionWall where
  id : Option String
  start : Point
  segments : List Segment
deriving DecidableEq, Repr

/-- One entry of the `points` array built by `convertTurtleToPoints`:
position plus the direction annotations the JavaScript attaches
(the first point carries only `direction`, later points also
`nextDirection`). -/
structure TurtlePoint where
  x : ℚ
  y : ℚ
  direction : Option String
  nextDirection : Option String
deriving DecidableEq, Repr

/-- The loop of `convertTurtleToPoints`: note its `switch` has no
`default` case, so an unknown direction leaves the position unchanged. -/
def convertTurtleToPointsAux (cur : Point) : List Segment → List TurtlePoint
  | [] => []
  | seg :: rest =>
    let next := (moveDir cur seg.direction seg.length).getD cur
    let nextDirection := ((rest.head?.map Segment.direction)).getD seg.direction
    ⟨next.x, next.y, some seg.direction, some nextDirection⟩ ::
      convertTurtleToPointsAux next rest

/-- `convertTurtleToPoints(partitionWall)` from generate-svg.js. -/
def convertTurtleToPoints (partitionWall : PartitionWall) : List TurtlePoint :=
  ⟨partitionWall.start.x, partitionWall.start.y,
    partitionWall.segments.head?.map Segment.direction, none⟩ ::
    convertTurtleToPointsAux partitionWall.start partitionWall.segments

/-- The default turtle point for out-of-bounds reads (never reached at
the actual call sites). -/
def defaultTurtlePoint : TurtlePoint := ⟨0, 0, none, none⟩

/-- The position carried by a turtle point. -/
def tpPos (t : TurtlePoint) : Point := ⟨t.x, t.y⟩

/-- The "Generate wall segment to next point" block of
`generatePartitionWalls`, for loop index `i`: the straight run emitted
between `points[i]` and `points[i+1]`, with the corner-position
adjustment applied to the current point when `i > 0` and the
first/last/single/middle end-space arithmetic. -/
def partitionRunAt (segments : List Segment) (points : List TurtlePoint) (i : ℕ) :
    Option Run :=
  let current := points.getD i defaultTurtlePoint
  let next := points.getD (i + 1) defaultTurtlePoint
  let isFirstSegment := i = 0
  let isLastSegment := i = points.length - 2
  let isSingleSegment := isFirstSegment ∧ isLastSegment
  let prevDir : Option String :=
    if 0 < i then some ((segments.getD (i - 1) ⟨"", 0⟩).direction) else none
  let currentX := if prevDir = some "east" then current.x - 1 else current.x
  let currentY :=
    if prevDir = some "east" then current.y
    else if prevDir = some "south" then current.y - 1 else current.y
  if current.y = next.y then
    let leftX := qmin currentX next.x
    let rightX := qmax currentX next.x
    let goingEast := next.x > currentX
    let wallStart :=
      if isSingleSegment then leftX + 1/2
      else if isFirstSegment then (if goingEast then leftX + 1/2 else leftX + 1)
      else if isLastSegment then (if goingEast then leftX + 1 else leftX + 3/2)
      else leftX + 1
    let wallEnd :=
      if isSingleSegment then rightX - 1/2
      else if isFirstSegment then (if goingEast then rightX - 1 else rightX - 1/2)
      else if isLastSegment then (if goingEast then rightX - 1/2 else rightX)
      else rightX
    let wallLength := wallEnd - wallStart
    if wallLength > 0 then some ⟨true, currentY, wallStart, wallLength⟩ else none
  else if current.x = next.x then
    let topY := qmin currentY next.y
    let bottomY := qmax currentY next.y
    let goingSouth := next.y > currentY
    let wallStart :=
      if isSingleSegment then topY + 1/2
      else if isFirstSegment then (if goingSouth then topY + 1/2 else topY + 1)
      else if isLastSegment then (if goingSouth then topY + 1 else topY + 3/2)
      else topY + 1
    let wallEnd :=
      if isSingleSegment then bottomY - 1/2
      else if isFirstSegment then (if goingSouth then bottomY - 1 else bottomY - 1/2)
      else if isLastSegment then (if goingSouth then bottomY - 1/2 else bottomY)
      else bottomY
    let wallLength := wallEnd - wallStart
    if wallLength > 0 then some ⟨false, currentX, wallStart, wallLength⟩ else none
  else none

/-- The straight runs emitted by `generatePartitionWalls` for one open
path, in loop order. -/
def partitionRuns (partitionWall : PartitionWall) : List Run :=
  let points := convertTurtleToPoints partitionWall
  (List.range (points.length - 1)).filterMap
    (partitionRunAt partitionWall.segments points)

/-- A door record (the fields the geometry reads).  Optional numeric
fields model absent JavaScript properties. -/
structure Door where
  id : Option String
  wallId : Option String
  x : ℚ
  y : ℚ
  doorType : Option String
  orientation : Option String
  facing : Option String
  bayWidth : Option ℚ
  width : Option ℚ
  doorWidth : Option ℚ
deriving DecidableEq, Repr

/-- The 5 ft door-to-segment matching tolerance of `findDoorsOnSegment`. -/
def doorTolerance : ℚ := 5

/-- `findDoorsOnSegment(doors, p1, p2, isHorizontal, isVertical)` from
the ModelT builder. -/
def findDoorsOnSegment (doors : List Door) (p1 p2 : Point)
    (isHorizontal isVertical : Bool) : List Door :=
  doors.filter (fun door =>
    if isHorizontal then
      decide (qabs (door.y - p1.y) < doorTolerance ∧
        qmin p1.x p2.x - doorTolerance ≤ door.x ∧
        door.x ≤ qmax p1.x p2.x + doorTolerance)
    else if isVertical then
      decide (qabs (door.x - p1.x) < doorTolerance ∧
        qmin p1.y p2.y - doorTolerance ≤ door.y ∧
        door.y ≤ qmax p1.y p2.y + doorTolerance)
    else false)

/-- A Babylon `Vector3` as used for the 2D wall profile. -/
structure Vec3 where
  x : ℚ
  y : ℚ
  z : ℚ
deriving DecidableEq, Repr

/-- JavaScript `value || fallback` on an optional number: `undefined`
and `0` are falsy. -/
def jsOrNum (value : Option ℚ) (fallback : ℚ) : ℚ :=
  match value with
  | some v => if v = 0 then fallback else v
  | none => fallback

/-- A door's absolute distance along a segment from `p1`
(`Math.abs(door.x - p1.x)` on horizontal, `Math.abs(door.y - p1.y)` on
vertical segments). -/
def doorPosOnSegment (isHorizontal : Bool) (p1 : Point) (door : Door) : ℚ :=
  if isHorizontal then qabs (door.x - p1.x) else qabs (door.y - p1.y)

/-- Stable insertion step for the door sort (JavaScript `Array.sort` is
stable; equal positions keep their original order). -/
def insertDoorByPos (pos : Door → ℚ) (door : Door) : List Door → List Door
  | [] => [door]
  | e :: rest =>
    if pos door ≤ pos e then door :: e :: rest
    else e :: insertDoorByPos pos door rest

/-- `doors.slice().sort((a, b) => posA - posB)`: sort doors by distance
along the segment, stably. -/
def sortDoorsByPos (isHorizontal : Bool) (p1 : Point) : List Door → List Door
  | [] => []
  | door :: rest =>
    insertDoorByPos (doorPosOnSegment isHorizontal p1) door
      (sortDoorsByPos isHorizontal p1 rest)

/-- The standard door opening height used by the wall profile. -/
def doorHeight : ℚ := 10

/-- `generateWallProfileWithDoors(p1, p2, segmentLength, wallHeight,
doors, isHorizontal, isVertical)`: the closed 2D outline of the wall
cross-section, tracing the floor with a full-height gap over each
door (`doorWidth = door.bayWidth || 10`), then the far edge and the
top back to the start. -/
def generateWallProfileWithDoors (p1 p2 : Point) (segmentLength wallHeight : ℚ)
    (doors : List Door) (isHorizontal isVertical : Bool) : List Vec3 :=
  let _ := p2
  let _ := isVertical
  let sortedDoors := sortDoorsByPos isHorizontal p1 doors
  let step : List Vec3 × ℚ → Door → List Vec3 × ℚ := fun (profile, currentPos) door =>
    let doorPos := doorPosOnSegment isHorizontal p1 door
    let doorWidth := jsOrNum door.bayWidth 10
    let doorStart := doorPos - doorWidth / 2
    let doorEnd := doorPos + doorWidth / 2
    let profile :=
      if doorStart > currentPos + 1/10 then profile ++ [⟨doorStart, 0, 0⟩]
      else profile
    (profile ++ [⟨doorStart, 0, doorHeight⟩, ⟨doorEnd, 0, doorHeight⟩, ⟨doorEnd, 0, 0⟩],
      doorEnd)
  let traced := sortedDoors.foldl step ([⟨0, 0, 0⟩], 0)
  traced.1 ++ [⟨segmentLength, 0, 0⟩, ⟨segmentLength, 0, wallHeight⟩,
    ⟨0, 0, wallHeight⟩, ⟨0, 0, 0⟩]

/-- The bay width used by `buildDoorMesh`:
`door.bayWidth || door.width || 10`. -/
def buildDoorMeshBayWidth (door : Door) : ℚ :=
  jsOrNum door.bayWidth (jsOrNum door.width 10)

/-- The door width used by `buildDoorMesh`:
`door.doorWidth ? door.doorWidth / 12 : bayWidth * 0.9`. -/
def buildDoorMeshDoorWidth (door : Door) : ℚ :=
  match door.doorWidth with
  | some w =>
    if w = 0 then buildDoorMeshBayWidth door * (9/10) else w / 12
  | none => buildDoorMeshBayWidth door * (9/10)

/-- Composition stated by the corners↔segments round-trip property:
derive segments from the corner polygon, then replay them from the
polygon's first corner. -/
def roundTrip (corners : List Point) : Option (List Point) :=
  match cornersToTurtle corners with
  | .error _ => none
  | .ok segs =>
    match turtleToCorners (corners.headD origin) segs with
    | .error _ => none
    | .ok pts => some pts

/-- Pointwise approximate equality of two points within `eps` on both
axes. -/
def pointApproxEq (eps : ℚ) (p q : Point) : Bool :=
  decide (qabs (p.x - q.x) ≤ eps ∧ qabs (p.y - q.y) ≤ eps)

/-- Approximate equality of two corner lists: equal length and each
vertex within `eps` on both axes. -/
def listApproxEq (eps : ℚ) : List Point → List Point → Bool
  | [], [] => true
  | p :: ps, q :: qs => pointApproxEq eps p q && listApproxEq eps ps qs
  | _, _ => false

/-- The final position after replaying a turtle path (no corner
bookkeeping); `none` when a direction is invalid. -/
def walkEnd (p : Point) : List Segment → Option Point
  | [] => some p
  | seg :: rest => (moveDir p seg.direction seg.length).bind (fun q => walkEnd q rest)

/-- The position reached after replaying a turtle path when invalid
directions leave the position unchanged (as in `convertTurtleToPoints`). -/
def walkPos (p : Point) : List Segment → Point
  | [] => p
  | seg :: rest => walkPos ((moveDir p seg.direction seg.length).getD p) rest

/-- The four legal direction strings. -/
def validDirection (dir : String) : Bool :=
  dir = "north" || dir = "south" || dir = "east" || dir = "west"

/-- The pairs walked by `cornersToTurtleFrom`: consecutive pairs of the
remaining list, the last element paired with `first`. -/
def cyclePairsFrom (first : Point) : List Point → List (Point × Point)
  | [] => []
  | [c] => [(c, first)]
  | c :: next :: rest => (c, next) :: cyclePairsFrom first (next :: rest)

/-- Two consecutive polygon corners differ in exactly one coordinate
(the claim's definition of an axis-aligned polygon edge). -/
def differsInExactlyOneCoord (a b : Point) : Bool :=
  (decide (a.x = b.x) && decide (a.y ≠ b.y)) ||
    (decide (a.y = b.y) && decide (a.x ≠ b.x))

/-- An axis-aligned polygon edge whose differing coordinate moves by at
least the 0.001 ft classification tolerance. -/
@[reducible] def exactAxisStep (a b : Point) : Prop :=
  (a.x = b.x ∧ closeTolerance ≤ qabs (b.y - a.y)) ∨
    (a.y = b.y ∧ closeTolerance ≤ qabs (b.x - a.x))

/-- Whether two axis-aligned segments meet (each segment equals its own
bounding box, so box overlap is exact intersection). -/
@[reducible] def segmentsIntersect (s1 s2 : Point × Point) : Prop :=
  qmax (qmin s1.1.x s1.2.x) (qmin s2.1.x s2.2.x) ≤
      qmin (qmax s1.1.x s1.2.x) (qmax s2.1.x s2.2.x) ∧
  qmax (qmin s1.1.y s1.2.y) (qmin s2.1.y s2.2.y) ≤
      qmin (qmax s1.1.y s1.2.y) (qmax s2.1.y s2.2.y)

/-- Two axis-aligned segments meet exactly in the single point `p`. -/
@[reducible] def sharedOnly (s1 s2 : Point × Point) (p : Point) : Prop :=
  qmax (qmin s1.1.x s1.2.x) (qmin s2.1.x s2.2.x) = p.x ∧
  qmin (qmax s1.1.x s1.2.x) (qmax s2.1.x s2.2.x) = p.x ∧
  qmax (qmin s1.1.y s1.2.y) (qmin s2.1.y s2.2.y) = p.y ∧
  qmin (qmax s1.1.y s1.2.y) (qmax s2.1.y s2.2.y) = p.y

/-- No self-intersection for an axis-aligned closed polygon: for every
ordered pair of edges, adjacent edges (including the wrap-around pair)
meet exactly in their shared corner, and all other edge pairs are
disjoint. -/
def simpleAxisPolygon (corners : List Point) : Bool :=
  (List.range (cyclePairs corners).length).all (fun i =>
    (List.range (cyclePairs corners).length).all (fun j =>
      !decide (i < j) ||
      ((!decide (j = i + 1) ||
          decide (sharedOnly ((cyclePairs corners).getD i (origin, origin))
            ((cyclePairs corners).getD j (origin, origin))
            ((cyclePairs corners).getD i (origin, origin)).2)) &&
        (!decide (i = 0 ∧ j = (cyclePairs corners).length - 1) ||
          decide (sharedOnly ((cyclePairs corners).getD i (origin, origin))
            ((cyclePairs corners).getD j (origin, origin))
            ((cyclePairs corners).getD i (origin, origin)).1)) &&
        ((decide (j = i + 1) ||
            decide (i = 0 ∧ j = (cyclePairs corners).length - 1)) ||
          !decide (segmentsIntersect ((cyclePairs corners).getD i (origin, origin))
            ((cyclePairs corners).getD j (origin, origin)))))))

/-- The final replayed point is within the closing tolerance of the
start on both axes. -/
@[reducible] def closeToStart (e start : Point) : Prop :=
  qabs (e.x - start.x) < closeTolerance ∧ qabs (e.y - start.y) < closeTolerance

/-- Forget a door's `width` and `doorWidth` fields. -/
def scrubDoorWidths (door : Door) : Door :=
  { door with width := none, doorWidth := none }

/-- Whether a direction string runs along the x axis. -/
def isHorizontalDir (dir : String) : Bool :=
  dir = "east" || dir = "west"

/-- Two directions are perpendicular: one runs along x, the other along
y (an actual turn of the partition path). -/
@[reducible] def perpendicularDirs (d e : String) : Prop :=
  isHorizontalDir d ≠ isHorizontalDir e

/-- Every consecutive pair of path segments turns. -/
@[reducible] def alwaysTurns (segments : List Segment) : Prop :=
  ∀ i, i + 1 < segments.length →
    perpendicularDirs (segments.getD i ⟨"", 0⟩).direction
      (segments.getD (i + 1) ⟨"", 0⟩).direction

/-- The straight run the amended partition-wall claim predicts for
segment `i`, phrased on the segment's true endpoints `A` (after `i`
moves) and `B` (after `i + 1` moves):

* a single-segment path reserves 0.5 ft at both ends;
* a first segment reserves 0.5 ft at its free end and 1 ft at its
  joined end;
* a last segment running east or south reserves 1 ft at its joined end
  and 0.5 ft at its free end, but running west or north it reserves
  1.5 ft at its free end and nothing at its joined end;
* a middle segment reserves 1 ft at its west (resp. north) end and
  nothing at its east (resp. south) end;
* the run is dropped when its length is not positive, and its drawn
  cross coordinate is shifted 1 ft up (resp. left) when the previous
  segment ran south (resp. east). -/
def expectedPartitionRun (w : PartitionWall) (i : ℕ) : Option Run :=
  let A := walkPos w.start (w.segments.take i)
  let B := walkPos w.start (w.segments.take (i + 1))
  let n := w.segments.length
  let d := (w.segments.getD i ⟨"", 0⟩).direction
  let prevd : Option String :=
    if 0 < i then some ((w.segments.getD (i - 1) ⟨"", 0⟩).direction) else none
  let single := n = 1
  let isFirst := i = 0
  let isLast := i = n - 1
  let drawY := if prevd = some "south" then A.y - 1 else A.y
  let drawX := if prevd = some "east" then A.x - 1 else A.x
  if d = "east" then
    let ws := if single then A.x + 1/2
      else if isFirst then A.x + 1/2
      else if isLast then A.x + 1
      else A.x + 1
    let we := if single then B.x - 1/2
      else if isFirst then B.x - 1
      else if isLast then B.x - 1/2
      else B.x
    if we - ws > 0 then some ⟨true, drawY, ws, we - ws⟩ else none
  else if d = "west" then
    let ws := if single then B.x + 1/2
      else if isFirst then B.x + 1
      else if isLast then B.x + 3/2
      else B.x + 1
    let we := if single then A.x - 1/2
      else if isFirst then A.x - 1/2
      else if isLast then A.x
      else A.x
    if we - ws > 0 then some ⟨true, drawY, ws, we - ws⟩ else none
  else if d = "south" then
    let ws := if single then A.y + 1/2
      else if isFirst then A.y + 1/2
      else if isLast then A.y + 1
      else A.y + 1
    let we := if single then B.y - 1/2
      else if isFirst then B.y - 1
      else if isLast then B.y - 1/2
      else B.y
    if we - ws > 0 then some ⟨false, drawX, ws, we - ws⟩ else none
  else
    let ws := if single then B.y + 1/2
      else if isFirst then B.y + 1
      else if isLast then B.y + 3/2
      else B.y + 1
    let we := if single then A.y - 1/2
      else if isFirst then A.y - 1/2
      else if isLast then A.y
      else A.y
    if we - ws > 0 then some ⟨false, drawX, ws, we - ws⟩ else none

deriving instance DecidableEq for Except

attribute [local semireducible] Rat.add Rat.sub Rat.mul Rat.inv

/-! ### The embedded JSON document (JSON.stringify / JSON.parse) and the generated SVG -/

mutual
/-- A JSON value as handled by `JSON.stringify(spec, null, 2)` and
`JSON.parse`.  JavaScript numbers are embedded as exact decimals
`m / 10^e` printed with `e` digits after the point. -/
inductive Json where
  | null : Json
  | bool (b : Bool) : Json
  | num (m : ℤ) (e : ℕ) : Json
  | str (s : String) : Json
  | arr (elems : JsonArr) : Json
  | obj (fields : JsonObj) : Json

/-- The element list of a JSON array. -/
inductive JsonArr where
  | nil : JsonArr
  | cons (hd : Json) (tl : JsonArr) : JsonArr

/-- The key/value list of a JSON object (in insertion order, as
JavaScript serialises it). -/
inductive JsonObj where
  | nil : JsonObj
  | cons (key : String) (val : Json) (tl : JsonObj) : JsonObj
end

mutual
/-- Structural size of a JSON value (drives the parser fuel). -/
def jsize : Json → ℕ
  | .null => 1
  | .bool _ => 1
  | .num _ _ => 1
  | .str _ => 1
  | .arr a => jsizeArr a + 1
  | .obj o => jsizeObj o + 1

/-- Structural size of a JSON array tail. -/
def jsizeArr : JsonArr → ℕ
  | .nil => 1
  | .cons h t => jsize h + jsizeArr t + 1

/-- Structural size of a JSON object tail. -/
def jsizeObj : JsonObj → ℕ
  | .nil => 1
  | .cons _ v t => jsize v + jsizeObj t + 1
end

/-! ### Characters and digits -/

/-- The decimal digit character for `d` (0–9). -/
def digitChar (d : ℕ) : Char :=
  if d = 0 then '0' else if d = 1 then '1' else if d = 2 then '2'
  else if d = 3 then '3' else if d = 4 then '4' else if d = 5 then '5'
  else if d = 6 then '6' else if d = 7 then '7' else if d = 8 then '8' else '9'

/-- Lower-case hexadecimal digit character for `n` (0–15), as used by the
`\u00XX` escapes JSON.stringify emits for control characters. -/
def hexChar (n : ℕ) : Char :=
  if n < 10 then digitChar n
  else if n = 10 then 'a' else if n = 11 then 'b' else if n = 12 then 'c'
  else if n = 13 then 'd' else if n = 14 then 'e' else 'f'

/-- Whether `c` is an ASCII decimal digit. -/
def isDigitChar (c : Char) : Bool :=
  c = '0' || c = '1' || c = '2' || c = '3' || c = '4' ||
  c = '5' || c = '6' || c = '7' || c = '8' || c = '9'

/-- The numeric value of a decimal digit character. -/
def charDigitVal (c : Char) : ℕ :=
  if c = '0' then 0 else if c = '1' then 1 else if c = '2' then 2
  else if c = '3' then 3 else if c = '4' then 4 else if c = '5' then 5
  else if c = '6' then 6 else if c = '7' then 7 else if c = '8' then 8 else 9

/-- The numeric value of a (lower-case) hexadecimal digit character. -/
def hexVal (c : Char) : ℕ :=
  if c = 'a' then 10 else if c = 'b' then 11 else if c = 'c' then 12
  else if c = 'd' then 13 else if c = 'e' then 14 else if c = 'f' then 15
  else charDigitVal c

/-- The decimal digits of `n`, most significant first (empty for 0). -/
def natDigitChars (n : ℕ) : List Char := ((Nat.digits 10 n).reverse).map digitChar

/-- Digits of `n` left-padded with zeros to at least `k` characters. -/
def padDigits (n k : ℕ) : List Char :=
  List.replicate (k - (natDigitChars n).length) '0' ++ natDigitChars n

/-- The characters printed for the decimal number `m / 10^e` (with `e`
digits after the point when `e > 0`, as in `10.25` for `m = 1025`,
`e = 2`). -/
def numChars (m : ℤ) (e : ℕ) : List Char :=
  let ds := padDigits m.natAbs (e + 1)
  let signChars : List Char := if m < 0 then ['-'] else []
  if e = 0 then signChars ++ ds
  else signChars ++ ds.take (ds.length - e) ++ '.' :: ds.drop (ds.length - e)

/-! ### String escaping (JSON.stringify) -/

/-- How JSON.stringify escapes one character inside a string literal:
quote and backslash get a backslash, the five named control characters
use their short escapes, the remaining control characters use `\u00XX`,
and everything else is emitted verbatim. -/
def escChar (c : Char) : List Char :=
  if c = '"' then ['\\', '"']
  else if c = '\\' then ['\\', '\\']
  else if c = '\n' then ['\\', 'n']
  else if c = '\r' then ['\\', 'r']
  else if c = '\t' then ['\\', 't']
  else if c = '\x08' then ['\\', 'b']
  else if c = '\x0c' then ['\\', 'f']
  else if c.toNat < 32 then
    ['\\', 'u', '0', '0', hexChar (c.toNat / 16), hexChar (c.toNat % 16)]
  else [c]

/-- Escape every character of a string body. -/
def escChars : List Char → List Char
  | [] => []
  | c :: r => escChar c ++ escChars r

/-- The indentation JSON.stringify(·, null, 2) prints at nesting depth
`d`: two spaces per level. -/
def indentChars (d : ℕ) : List Char := List.replicate (2 * d) ' '

mutual
/-- The exact character stream `JSON.stringify(v, null, 2)` produces for
value `v` at nesting depth `d`. -/
def stringifyVal : Json → ℕ → List Char
  | .null, _ => ['n', 'u', 'l', 'l']
  | .bool true, _ => ['t', 'r', 'u', 'e']
  | .bool false, _ => ['f', 'a', 'l', 's', 'e']
  | .num m e, _ => numChars m e
  | .str s, _ => '"' :: (escChars s.data ++ ['"'])
  | .arr .nil, _ => ['[', ']']
  | .arr (.cons h t), d =>
    '[' :: '\n' :: (indentChars (d + 1) ++ (stringifyVal h (d + 1) ++
      (stringifyArrRest t (d + 1) ++ ('\n' :: (indentChars d ++ [']'])))))
  | .obj .nil, _ => ['\x7b', '\x7d']
  | .obj (.cons k v t), d =>
    '\x7b' :: '\n' :: (indentChars (d + 1) ++ ('"' :: (escChars k.data ++
      ('"' :: ':' :: ' ' :: (stringifyVal v (d + 1) ++
        (stringifyObjRest t (d + 1) ++ ('\n' :: (indentChars d ++ ['\x7d']))))))))

/-- The `,\n<indent>element` continuation for the remaining array
elements at depth `d`. -/
def stringifyArrRest : JsonArr → ℕ → List Char
  | .nil, _ => []
  | .cons h t, d =>
    ',' :: '\n' :: (indentChars d ++ (stringifyVal h d ++ stringifyArrRest t d))

/-- The `,\n<indent>"key": value` continuation for the remaining object
members at depth `d`. -/
def stringifyObjRest : JsonObj → ℕ → List Char
  | .nil, _ => []
  | .cons k v t, d =>
    ',' :: '\n' :: (indentChars d ++ ('"' :: (escChars k.data ++
      ('"' :: ':' :: ' ' :: (stringifyVal v d ++ stringifyObjRest t d)))))
end

/-- `JSON.stringify(spec, null, 2)`. -/
def jsonStringify (j : Json) : String := ⟨stringifyVal j 0⟩

/-! ### JSON.parse -/

/-- JSON whitespace. -/
def isWsChar (c : Char) : Bool := c = ' ' || c = '\n' || c = '\t' || c = '\r'

/-- Drop leading JSON whitespace. -/
def skipWs : List Char → List Char
  | [] => []
  | c :: r => if isWsChar c then skipWs r else c :: r

/-- MSD-first decimal accumulation of a digit-character run. -/
def natOfDigitChars (l : List Char) : ℕ :=
  l.foldl (fun a c => a * 10 + charDigitVal c) 0

/-- Parse a JSON number token: optional minus sign, an integer digit
run, and an optional fractional digit run. -/
def parseNumber (input : List Char) : Option (Json × List Char) :=
  let neg := input.head? = some '-'
  let r0 := if input.head? = some '-' then input.tail else input
  let ds := r0.takeWhile isDigitChar
  let r1 := r0.dropWhile isDigitChar
  if ds.isEmpty then none
  else
    match r1 with
    | '.' :: r2 =>
      let fs := r2.takeWhile isDigitChar
      let r3 := r2.dropWhile isDigitChar
      if fs.isEmpty then none
      else
        some (Json.num
          (if neg then -(natOfDigitChars (ds ++ fs) : ℤ)
           else (natOfDigitChars (ds ++ fs) : ℤ)) fs.length, r3)
    | _ =>
      some (Json.num
        (if neg then -(natOfDigitChars ds : ℤ) else (natOfDigitChars ds : ℤ)) 0, r1)

/-- Decode a single-character escape (the part after the backslash). -/
def unescape (e : Char) : Option Char :=
  if e = '"' then some '"'
  else if e = '\\' then some '\\'
  else if e = '/' then some '/'
  else if e = 'n' then some '\n'
  else if e = 'r' then some '\r'
  else if e = 't' then some '\t'
  else if e = 'b' then some '\x08'
  else if e = 'f' then some '\x0c'
  else none

/-- Parse the body of a JSON string literal after the opening quote:
returns the decoded characters and the input after the closing quote. -/
def parseStrChars : List Char → Option (List Char × List Char)
  | [] => none
  | c :: r =>
    if c = '"' then some ([], r)
    else if c = '\\' then
      match r with
      | [] => none
      | e :: r2 =>
        if e = 'u' then
          match r2 with
          | h1 :: h2 :: h3 :: h4 :: r3 =>
            match parseStrChars r3 with
            | some (s, r4) =>
              some (Char.ofNat
                (((hexVal h1 * 16 + hexVal h2) * 16 + hexVal h3) * 16 + hexVal h4) :: s, r4)
            | none => none
          | _ => none
        else
          match unescape e with
          | some u =>
            match parseStrChars r2 with
            | some (s, r3) => some (u :: s, r3)
            | none => none
          | none => none
    else
      match parseStrChars r with
      | some (s, r2) => some (c :: s, r2)
      | none => none

mutual
/-- Parse one JSON value (leading whitespace allowed), with fuel. -/
def parseValue : ℕ → List Char → Option (Json × List Char)
  | 0, _ => none
  | f + 1, input =>
    match skipWs input with
    | [] => none
    | c :: r =>
      if c = '"' then
        match parseStrChars r with
        | some (s, r1) => some (Json.str ⟨s⟩, r1)
        | none => none
      else if c = '[' then
        let r1 := skipWs r
        if r1.head? = some ']' then some (Json.arr JsonArr.nil, r1.tail)
        else
          match parseArrItems f r1 with
          | some (a, r2) => some (Json.arr a, r2)
          | none => none
      else if c = '\x7b' then
        let r1 := skipWs r
        if r1.head? = some '\x7d' then some (Json.obj JsonObj.nil, r1.tail)
        else
          match parseObjItems f r1 with
          | some (o, r2) => some (Json.obj o, r2)
          | none => none
      else if c = 'n' then
        match r with
        | 'u' :: 'l' :: 'l' :: r2 => some (Json.null, r2)
        | _ => none
      else if c = 't' then
        match r with
        | 'r' :: 'u' :: 'e' :: r2 => some (Json.bool true, r2)
        | _ => none
      else if c = 'f' then
        match r with
        | 'a' :: 'l' :: 's' :: 'e' :: r2 => some (Json.bool false, r2)
        | _ => none
      else parseNumber (c :: r)

/-- Parse the comma-separated elements of a non-empty array, up to and
including the closing bracket. -/
def parseArrItems : ℕ → List Char → Option (JsonArr × List Char)
  | 0, _ => none
  | f + 1, input =>
    match parseValue f input with
    | some (v, r) =>
      match skipWs r with
      | ',' :: r2 =>
        match parseArrItems f r2 with
        | some (tl, r3) => some (JsonArr.cons v tl, r3)
        | none => none
      | ']' :: r2 => some (JsonArr.cons v JsonArr.nil, r2)
      | _ => none
    | none => none

/-- Parse the comma-separated members of a non-empty object, up to and
including the closing brace. -/
def parseObjItems : ℕ → List Char → Option (JsonObj × List Char)
  | 0, _ => none
  | f + 1, input =>
    match skipWs input with
    | '"' :: r =>
      match parseStrChars r with
      | some (k, r1) =>
        match skipWs r1 with
        | ':' :: r2 =>
          match parseValue f r2 with
          | some (v, r3) =>
            match skipWs r3 with
            | ',' :: r4 =>
              match parseObjItems f r4 with
              | some (tl, r5) => some (JsonObj.cons ⟨k⟩ v tl, r5)
              | none => none
            | '\x7d' :: r4 => some (JsonObj.cons ⟨k⟩ v JsonObj.nil, r4)
            | _ => none
          | none => none
        | _ => none
      | none => none
    | _ => none
end

/-- `JSON.parse`: parse a complete JSON document, allowing surrounding
whitespace; `none` models a thrown SyntaxError. -/
def jsonParse (s : String) : Option Json :=
  match parseValue (s.length + 1) s.data with
  | some (v, r) => if skipWs r = [] then some v else none
  | none => none

/-- MSD-first accumulation of plain digit values. -/
def natOfDigitVals (l : List ℕ) : ℕ := l.foldl (fun a d => a * 10 + d) 0

/-- The continuation after a number token must not begin with
a digit or a decimal point (maximal-munch safety). -/
def numSafeB : List Char → Bool
  | [] => true
  | c :: _ => !(isDigitChar c || c = '.')

/-! ### The generated SVG document and the ModelT parser -/

/-- A `<script>` element of the generated SVG (the only DOM node
`ModelTParser` reads). -/
structure ScriptElement where
  scriptType : String
  elemId : String
  textContent : String
deriving DecidableEq, Repr

/-- The generated SVG document: the full markup string returned by
`generateModelTSVG` together with the embedded schema script element it
contains.  The element's `textContent` is the text the template places
between `<script type="application/json" id="modelt-schema">` and
`</script>`: a newline, `JSON.stringify(spec, null, 2)`, then a newline
and the two-space closing indent. -/
structure SvgDocument where
  markup : String
  schema : ScriptElement
deriving DecidableEq, Repr

/-- `svgDoc.getElementById(id)` for the documents this generator
produces (which carry exactly one script element). -/
def getElementById (doc : SvgDocument) (i : String) : Option ScriptElement :=
  if doc.schema.elemId = i then some doc.schema else none

/-- JavaScript property lookup on the field list of a JSON object. -/
def jGetObj : JsonObj → String → Option Json
  | .nil, _ => none
  | .cons k v t, key => if k = key then some v else jGetObj t key

/-- JavaScript property lookup `j[key]` (absent on non-objects). -/
def jGet (j : Json) (key : String) : Option Json :=
  match j with
  | .obj fields => jGetObj fields key
  | _ => none

/-- `Array.isArray` on an optional property. -/
def jIsArr : Option Json → Bool
  | some (.arr _) => true
  | _ => false

/-- The elements of a JSON array property (empty for anything else). -/
def jsonArrToList : JsonArr → List Json
  | .nil => []
  | .cons h t => h :: jsonArrToList t

/-- An array-valued property as a Lean list. -/
def jArrList : Option Json → List Json
  | some (.arr a) => jsonArrToList a
  | _ => []

/-- A numeric property as an exact rational. -/
def jNumQ : Option Json → Option ℚ
  | some (.num m e) => some ((m : ℚ) / (10 : ℚ) ^ e)
  | _ => none

/-- A string property, printed the way a template literal would print it
(`undefined` for an absent or non-string value). -/
def jStrS : Option Json → String
  | some (.str s) => s
  | _ => "undefined"

/-- Whether an optional property is the given string. -/
def jStrIs (o : Option Json) (s : String) : Bool :=
  match o with
  | some (.str v) => v = s
  | _ => false

/-- Decimal rendering of a rational produced by the generator's
arithmetic.  Coordinates that are exact decimals print as JavaScript
would print them; other denominators (where binary floating point would
already have diverged from this exact model) fall back to a fraction. -/
def ratStr (q : ℚ) : String :=
  match (List.range 18).find? (fun e => (q * (10 : ℚ) ^ e).den = 1) with
  | some e => ⟨numChars (q * (10 : ℚ) ^ e).num e⟩
  | none => toString q.num ++ "/" ++ toString q.den

/-- `x.toFixed(1)`, the formatting of the width/height attributes. -/
def toFixed1 (q : ℚ) : String := ⟨numChars ⌊q * 10 + 1 / 2⌋ 1⟩

/-- The `(x, y)` pairs of a `corners` array. -/
def cornerPairs (corners : List Json) : List (ℚ × ℚ) :=
  corners.filterMap (fun c =>
    match jNumQ (jGet c "x"), jNumQ (jGet c "y") with
    | some x, some y => some (x, y)
    | _, _ => none)

/-- `Math.min` over a list (`0` stands in for the `Infinity` JavaScript
produces on an empty spread, which no well-formed spec reaches). -/
def qMinList (l : List ℚ) : ℚ := l.foldl qmin (l.headD 0)

/-- `Math.max` over a list. -/
def qMaxList (l : List ℚ) : ℚ := l.foldl qmax (l.headD 0)

/-- `property.boundary` as `(x, y, width, height)` when present. -/
def boundaryRect (spec : Json) : Option (ℚ × ℚ × ℚ × ℚ) :=
  match jGet spec "property" with
  | some prop =>
    match jGet prop "boundary" with
    | some b =>
      match jNumQ (jGet b "x"), jNumQ (jGet b "y"),
          jNumQ (jGet b "width"), jNumQ (jGet b "height") with
      | some x, some y, some w, some h => some (x, y, w, h)
      | _, _, _, _ => none
    | none => none
  | none => none

/-- The viewBox `(minX, minY, width, height)` of the v2 template:
the property boundary when given, otherwise the bounding box of all
slab corners. -/
def viewBoxV2 (spec : Json) : ℚ × ℚ × ℚ × ℚ :=
  match boundaryRect spec with
  | some r => r
  | none =>
    let allCorners := (jArrList (jGet spec "slabs")).foldr
      (fun slab acc => cornerPairs (jArrList (jGet slab "corners")) ++ acc) []
    let allX := allCorners.map Prod.fst
    let allY := allCorners.map Prod.snd
    let minX := qMinList allX
    let minY := qMinList allY
    (minX, minY, qMaxList allX - minX, qMaxList allY - minY)

/-- `generateSlab`: the slab footprint path. -/
def generateSlab (corners : List (ℚ × ℚ)) : String :=
  if corners.isEmpty then ""
  else
    let pathData := String.intercalate " "
      ((List.range corners.length).map (fun i =>
        (if i = 0 then "M " else "L ") ++
          ratStr (corners.getD i (0, 0)).1 ++ "," ++
          ratStr (corners.getD i (0, 0)).2)) ++ " Z"
    "<path id=\"slab\" d=\"" ++ pathData ++
      "\" style=\"fill:#8888aa;fill-opacity:0.8;stroke:#000000;stroke-width:0.05\"/>"

/-- Abbreviated markup for a list of slab components (columns, walls,
doors, cameras).  The geometric path data these generators emit never
feeds back into the embedded schema, so only the component skeleton with
its ids is modelled here. -/
def componentsMarkup (items : List Json) : String :=
  String.intercalate "" (items.map (fun item =>
    "<g id=\"" ++ jStrS (jGet item "id") ++ "\"/>"))

/-- `generateSlabSVG`: the markup for one v2 slab (footprint, columns,
walls split by type, doors, cameras), following the source template. -/
def generateSlabSVGMarkup (slab : Json) : String :=
  let id := jStrS (jGet slab "id")
  let name := jStrS (jGet slab "name")
  let walls := jArrList (jGet slab "walls")
  let slabSVG := generateSlab (cornerPairs (jArrList (jGet slab "corners")))
  let slabPerimeterSVG :=
    componentsMarkup (walls.filter (fun w => jStrIs (jGet w "type") "slabPerimeter"))
  let perimeterSVG :=
    componentsMarkup (walls.filter (fun w => jStrIs (jGet w "type") "perimeter"))
  let partitionSVG :=
    componentsMarkup (walls.filter (fun w => jStrIs (jGet w "type") "partition"))
  let columnsSVG := componentsMarkup (jArrList (jGet slab "columns"))
  let doorsSVG := componentsMarkup (jArrList (jGet slab "doors"))
  let camerasSVG := componentsMarkup (jArrList (jGet slab "cameras"))
  "\n    <!-- Slab: " ++ id ++ " (" ++ name ++ ") -->\n    <g id=\"slab_" ++ id ++
    "\">\n      <!-- Slab footprint -->\n      " ++ slabSVG ++
    "\n\n      <!-- Structural Columns -->\n      <g id=\"" ++ id ++
    "_columns\" style=\"display:inline\">\n        " ++ columnsSVG ++
    "\n      </g>\n\n      <!-- Walls -->\n      <g id=\"" ++ id ++
    "_walls\" style=\"display:inline;fill:#00449e;fill-opacity:1\">\n        " ++
    slabPerimeterSVG ++ "\n        " ++ perimeterSVG ++ "\n        " ++
    partitionSVG ++
    "\n      </g>\n\n      <!-- Doors -->\n      <g id=\"" ++ id ++
    "_doors\" style=\"display:inline\">\n        " ++ doorsSVG ++
    "\n      </g>\n\n      <!-- Cameras -->\n      <g id=\"" ++ id ++
    "_cameras\" style=\"display:inline\">\n        " ++ camerasSVG ++
    "\n      </g>\n    </g>"

/-- The v2 (multi-slab) SVG markup of `generateModelTSVG`: the exact
return template, with the embedded JSON between the script tags. -/
def v2Markup (spec : Json) (embeddedJSON : String) : String :=
  let vb := viewBoxV2 spec
  let minX := ratStr vb.1
  let minY := ratStr vb.2.1
  let vbw := ratStr vb.2.2.1
  let vbh := ratStr vb.2.2.2
  let width := toFixed1 (vb.2.2.1 * (378 / 100))
  let height := toFixed1 (vb.2.2.2 * (378 / 100))
  let slabsSVG := String.intercalate "\n"
    ((jArrList (jGet spec "slabs")).map generateSlabSVGMarkup)
  "<svg width=\"" ++ width ++ "\" height=\"" ++ height ++ "\" viewBox=\"" ++
    minX ++ " " ++ minY ++ " " ++ vbw ++ " " ++ vbh ++
    "\" version=\"1.1\" id=\"facility-svg\" xmlns=\"http://www.w3.org/2000/svg\">\n  <g id=\"layer1\">\n    <!-- Property boundary -->\n    <rect id=\"land\" width=\"" ++
    vbw ++ "\" height=\"" ++ vbh ++ "\" x=\"" ++ minX ++ "\" y=\"" ++ minY ++
    "\" style=\"fill:#e0e0e0;fill-opacity:0.3;stroke:none\"/>\n\n    " ++
    slabsSVG ++
    "\n  </g>\n\n  <!-- Embedded ModelT JSON source data (non-visual, machine-readable) -->\n  <script type=\"application/json\" id=\"modelt-schema\">\n" ++
    embeddedJSON ++ "\n  </script>\n</svg>"

/-- The v1 (flat, backward-compatible) markup of
`generateModelTSVG_V1`, with the same embedded-schema script tag. -/
def v1Markup (spec : Json) (embeddedJSON : String) : String :=
  let vb :=
    match boundaryRect spec with
    | some r => r
    | none =>
      let corners := cornerPairs (jArrList (jGet (jGet spec "slab" |>.getD Json.null) "corners"))
      let allX := corners.map Prod.fst
      let allY := corners.map Prod.snd
      let minX := qMinList allX
      let minY := qMinList allY
      (minX, minY, qMaxList allX - minX, qMaxList allY - minY)
  let minX := ratStr vb.1
  let minY := ratStr vb.2.1
  let vbw := ratStr vb.2.2.1
  let vbh := ratStr vb.2.2.2
  let width := toFixed1 (vb.2.2.1 * (378 / 100))
  let height := toFixed1 (vb.2.2.2 * (378 / 100))
  let slabSVG := generateSlab
    (cornerPairs (jArrList (jGet (jGet spec "slab" |>.getD Json.null) "corners")))
  let wallsSVG := componentsMarkup (jArrList (jGet spec "walls"))
  let partitionWallsSVG := componentsMarkup (jArrList (jGet spec "partitionWalls"))
  let doorsSVG := componentsMarkup (jArrList (jGet spec "doors"))
  let camerasSVG := componentsMarkup (jArrList (jGet spec "cameras"))
  let columnsSVG := componentsMarkup (jArrList (jGet spec "columns"))
  "<svg width=\"" ++ width ++ "\" height=\"" ++ height ++ "\" viewBox=\"" ++
    minX ++ " " ++ minY ++ " " ++ vbw ++ " " ++ vbh ++
    "\" version=\"1.1\" id=\"warehouse-svg\" xmlns=\"http://www.w3.org/2000/svg\">\n  <g id=\"layer1\">\n    <!-- Property boundary -->\n    <rect id=\"land\" width=\"" ++
    vbw ++ "\" height=\"" ++ vbh ++ "\" x=\"" ++ minX ++ "\" y=\"" ++ minY ++
    "\" style=\"fill:#e0e0e0;fill-opacity:0.3;stroke:none\"/>\n\n    <!-- Slab -->\n    " ++
    slabSVG ++
    "\n\n    <!-- Structural Columns -->\n    <g id=\"columns\" style=\"display:inline\">\n      " ++
    columnsSVG ++
    "\n    </g>\n\n    <!-- Walls -->\n    <g id=\"walls\" style=\"display:inline;fill:#00449e;fill-opacity:1\">\n      " ++
    wallsSVG ++ "\n      " ++ partitionWallsSVG ++
    "\n    </g>\n\n    <!-- Doors -->\n    <g id=\"doors\" style=\"display:inline\">\n      " ++
    doorsSVG ++
    "\n    </g>\n\n    <!-- Cameras -->\n    <g id=\"cameras\" style=\"display:inline\">\n      " ++
    camerasSVG ++
    "\n    </g>\n  </g>\n\n  <!-- Embedded ModelT JSON source data (non-visual, machine-readable) -->\n  <script type=\"application/json\" id=\"modelt-schema\">\n" ++
    embeddedJSON ++ "\n  </script>\n</svg>"

/-- `generateModelTSVG`: detect v2 (a `slabs` array) or fall back to the
v1 generator; both templates embed `JSON.stringify(spec, null, 2)` in
the `modelt-schema` script element, whose text content is the document's
schema node. -/
def generateModelTSVG (spec : Json) : SvgDocument :=
  let embeddedJSON := jsonStringify spec
  let markup :=
    if jIsArr (jGet spec "slabs") then v2Markup spec embeddedJSON
    else v1Markup spec embeddedJSON
  ⟨markup, ⟨"application/json", "modelt-schema", "\n" ++ embeddedJSON ++ "\n  "⟩⟩

/-- The two ways `ModelTParser.parse` throws. -/
inductive SchemaError where
  | noSchema : SchemaError
  | syntaxError : SchemaError
deriving DecidableEq, Repr

/-- `ModelTParser.parse`: find the `modelt-schema` script element and
`JSON.parse` its text content. -/
def ModelTParser.parse (svgDoc : SvgDocument) : Except SchemaError Json :=
  match getElementById svgDoc "modelt-schema" with
  | none => .error .noSchema
  | some scriptElement =>
    match jsonParse scriptElement.textContent with
    | some spec => .ok spec
    | none => .error .syntaxError

/-! ## Theorems -/

/-- C5: the simple rectangle `{start: (0,0), segments: [east 10, south 10,
west 10, north 10]}` normalizes to exactly the four corners (0,0), (10,0),
(10,10), (0,10) (the closing corner dropped); every corner has a positive
cross product, hence is classified exterior; and the inferred corner
types are NW, NE, SE, SW in clockwise order (the first fixed to NW). -/
theorem simple_rectangle_scenario :
    turtleToCorners ⟨0, 0⟩
        [⟨"east", 10⟩, ⟨"south", 10⟩, ⟨"west", 10⟩, ⟨"north", 10⟩] =
      .ok [⟨0, 0⟩, ⟨10, 0⟩, ⟨10, 10⟩, ⟨0, 10⟩] ∧
    (∀ i < 4, 0 < cornerCross [⟨0, 0⟩, ⟨10, 0⟩, ⟨10, 10⟩, ⟨0, 10⟩] i ∧
      isInteriorCorner [⟨0, 0⟩, ⟨10, 0⟩, ⟨10, 10⟩, ⟨0, 10⟩] i = false) ∧
    (List.range 4).map (fun i =>
        inferCornerType [⟨0, 0⟩, ⟨10, 0⟩, ⟨10, 10⟩, ⟨0, 10⟩] i
          (isInteriorCorner [⟨0, 0⟩, ⟨10, 0⟩, ⟨10, 10⟩, ⟨0, 10⟩] i)) =
      ["NW", "NE", "SE", "SW"] := by
  decide

/-- C6: on the 20 ft east-running wall segment (0,0)→(20,0), a single bay
door at (10,0) with `bayWidth = 10` matches the segment within the 5 ft
tolerance, and the emitted wall profile is full-height wall from 0 to
5 ft, a full-height opening from 5 to 15 ft, and wall from 15 to 20 ft
(outline traced floor → over the door at door height 10 → far edge →
top at wall height → back to start). -/
theorem east_wall_door_cutout_scenario :
    findDoorsOnSegment
        [⟨some "d1", some "w1", 10, 0, some "bay", some "horizontal", none,
          some 10, none, none⟩] ⟨0, 0⟩ ⟨20, 0⟩ true false =
      [⟨some "d1", some "w1", 10, 0, some "bay", some "horizontal", none,
        some 10, none, none⟩] ∧
    generateWallProfileWithDoors ⟨0, 0⟩ ⟨20, 0⟩ 20 15
        [⟨some "d1", some "w1", 10, 0, some "bay", some "horizontal", none,
          some 10, none, none⟩] true false =
      [⟨0, 0, 0⟩, ⟨5, 0, 0⟩, ⟨5, 0, 10⟩, ⟨15, 0, 10⟩, ⟨15, 0, 0⟩,
        ⟨20, 0, 0⟩, ⟨20, 0, 15⟩, ⟨0, 0, 15⟩, ⟨0, 0, 0⟩] := by
  decide

/-- C7: the code-vs-claim divergence for invalid directions.  A closed
shape's segment with direction "up" makes `turtleToCorners` fail with
the InvalidDirection error, but the partition-wall path
(`convertTurtleToPoints`, whose `switch` has no default case) silently
accepts the same segment, producing points with zero displacement, so
partition-wall generation continues and SVG output is still produced. -/
theorem invalid_direction_partition_divergence :
    validDirection "up" = false ∧
    turtleToCorners ⟨0, 0⟩ [⟨"up", 5⟩] =
      .error (.invalidDirection "up") ∧
    convertTurtleToPoints ⟨some "p1", ⟨0, 0⟩, [⟨"up", 5⟩]⟩ =
      [⟨0, 0, some "up", none⟩, ⟨0, 0, some "up", some "up"⟩] := by
  decide

/-- C1 counterexample: the closed axis-aligned polygon
(0,0), (0.0006,0), (0.0012,0), (0.0012,1), (0,1) — every consecutive
pair (wrapping) differs in exactly one coordinate and the polygon has no
self-intersection — does not round-trip within 0.001 ft: the two
sub-tolerance east steps are classified as zero-length vertical moves,
so the replayed list has six corners (the closing corner is not dropped)
and drifts 0.0012 ft, beyond the 0.001 ft tolerance. -/
theorem roundTrip_tolerance_counterexample :
    (∀ pair ∈ cyclePairs
        [⟨0, 0⟩, ⟨3/5000, 0⟩, ⟨3/2500, 0⟩, ⟨3/2500, 1⟩, (⟨0, 1⟩ : Point)],
      differsInExactlyOneCoord pair.1 pair.2 = true) ∧
    simpleAxisPolygon [⟨0, 0⟩, ⟨3/5000, 0⟩, ⟨3/2500, 0⟩, ⟨3/2500, 1⟩, ⟨0, 1⟩] = true ∧
    roundTrip [⟨0, 0⟩, ⟨3/5000, 0⟩, ⟨3/2500, 0⟩, ⟨3/2500, 1⟩, ⟨0, 1⟩] =
      some [⟨0, 0⟩, ⟨0, 0⟩, ⟨0, 0⟩, ⟨0, 1⟩, ⟨-3/2500, 1⟩, ⟨-3/2500, 0⟩] ∧
    listApproxEq closeTolerance
        [⟨0, 0⟩, ⟨0, 0⟩, ⟨0, 0⟩, ⟨0, 1⟩, ⟨-3/2500, 1⟩, ⟨-3/2500, 0⟩]
        [⟨0, 0⟩, ⟨3/5000, 0⟩, ⟨3/2500, 0⟩, ⟨3/2500, 1⟩, ⟨0, 1⟩] = false := by
  decide

/-- C4 counterexample: for the closed 10×10 rectangle with no doors the
four emitted straight runs have length 8 each (each run loses the full
1 ft corner footprint at both ends), so their sum plus one foot per
corner is 36, not the perimeter 40. -/
theorem wall_length_one_per_corner_counterexample :
    wallRuns [⟨0, 0⟩, ⟨10, 0⟩, ⟨10, 10⟩, ⟨0, 10⟩] =
      [⟨true, 0, 1, 8⟩, ⟨false, 9, 1, 8⟩, ⟨true, 9, 1, 8⟩, ⟨false, 0, 1, 8⟩] ∧
    perimeterOf [⟨0, 0⟩, ⟨10, 0⟩, ⟨10, 10⟩, ⟨0, 10⟩] = 40 ∧
    ((wallRuns [⟨0, 0⟩, ⟨10, 0⟩, ⟨10, 10⟩, ⟨0, 10⟩]).map Run.runLength).sum +
        (([⟨0, 0⟩, ⟨10, 0⟩, ⟨10, 10⟩, ⟨0, 10⟩] : List Point).length : ℚ) * 1 ≠
      perimeterOf [⟨0, 0⟩, ⟨10, 0⟩, ⟨10, 10⟩, ⟨0, 10⟩] := by
  decide

/-- C3 counterexample: on the open path south 10, east 10, south 10 from
(0,0), the middle (east) segment runs between (0,10) and (10,10); the
claimed reservation of 1 ft at both ends would give the run [1, 9] of
length 8, but the emitted run is [1, 10] of length 9 — nothing is
reserved at the segment's east end (the run overlaps the next corner
bracket).  The first and last runs (length 8.5 each) match the claim. -/
theorem partition_reservation_counterexample :
    partitionRuns ⟨some "w1", ⟨0, 0⟩, [⟨"south", 10⟩, ⟨"east", 10⟩, ⟨"south", 10⟩]⟩ =
      [⟨false, 0, 1/2, 17/2⟩, ⟨true, 9, 1, 9⟩, ⟨false, 9, 11, 17/2⟩] ∧
    ¬(((partitionRuns
          ⟨some "w1", ⟨0, 0⟩, [⟨"south", 10⟩, ⟨"east", 10⟩, ⟨"south", 10⟩]⟩).getD 1
            ⟨true, 0, 0, 0⟩).runStart = 0 + 1 ∧
      ((partitionRuns
          ⟨some "w1", ⟨0, 0⟩, [⟨"south", 10⟩, ⟨"east", 10⟩, ⟨"south", 10⟩]⟩).getD 1
            ⟨true, 0, 0, 0⟩).runStart +
        ((partitionRuns
            ⟨some "w1", ⟨0, 0⟩, [⟨"south", 10⟩, ⟨"east", 10⟩, ⟨"south", 10⟩]⟩).getD 1
              ⟨true, 0, 0, 0⟩).runLength = 10 - 1) := by
  decide

/-! ### Helper lemmas -/

theorem qabs_zero : qabs 0 = 0 := rfl

theorem qabs_sub_self (a : ℚ) : qabs (a - a) = 0 := by
  rw [sub_self]; rfl

theorem closeTolerance_pos : (0 : ℚ) < closeTolerance := by norm_num [closeTolerance]

theorem cyclePairsFrom_eq_zip (first : Point) :
    ∀ (c : Point) (rest : List Point),
      cyclePairsFrom first (c :: rest) = (c :: rest).zip (rest ++ [first])
  | _, [] => rfl
  | c, next :: rest => by
    rw [show cyclePairsFrom first (c :: next :: rest) =
        (c, next) :: cyclePairsFrom first (next :: rest) from rfl,
      cyclePairsFrom_eq_zip first next rest]
    rfl

theorem cyclePairsFrom_eq_cyclePairs (c : Point) (rest : List Point) :
    cyclePairsFrom c (c :: rest) = cyclePairs (c :: rest) := by
  rw [cyclePairsFrom_eq_zip]; rfl

theorem pairToSegment_error {a b : Point} {e : GenError}
    (h : pairToSegment a b = .error e) : e = .diagonalMovement a b := by
  simp only [pairToSegment] at h
  split_ifs at h
  all_goals simp_all

theorem pairToSegment_diagonal {a b : Point}
    (hx : closeTolerance ≤ qabs (b.x - a.x)) (hy : closeTolerance ≤ qabs (b.y - a.y)) :
    pairToSegment a b = .error (.diagonalMovement a b) := by
  simp only [pairToSegment]
  rw [if_neg (not_lt.mpr hx), if_neg (not_lt.mpr hy)]

theorem cornersToTurtleFrom_diagonal (first : Point) :
    ∀ l : List Point,
      (∃ pair ∈ cyclePairsFrom first l,
        closeTolerance ≤ qabs (pair.2.x - pair.1.x) ∧
        closeTolerance ≤ qabs (pair.2.y - pair.1.y)) →
      ∃ a b, cornersToTurtleFrom first l = .error (.diagonalMovement a b)
  | [], h => by simp [cyclePairsFrom] at h
  | [c], h => by
    obtain ⟨pair, hmem, hx, hy⟩ := h
    simp only [cyclePairsFrom, List.mem_singleton] at hmem
    subst hmem
    exact ⟨c, first, by rw [show cornersToTurtleFrom first [c] =
      (pairToSegment c first).map (fun s => [s]) from rfl,
      pairToSegment_diagonal hx hy]; rfl⟩
  | c :: next :: rest, h => by
    rcases hpc : pairToSegment c next with e | s
    · exact ⟨c, next, by
        rw [show cornersToTurtleFrom first (c :: next :: rest) =
          (pairToSegment c next).bind (fun s =>
            (cornersToTurtleFrom first (next :: rest)).bind
              (fun ss => pure (s :: ss))) from rfl, hpc,
          pairToSegment_error hpc]; rfl⟩
    · obtain ⟨pair, hmem, hx, hy⟩ := h
      rw [show cyclePairsFrom first (c :: next :: rest) =
        (c, next) :: cyclePairsFrom first (next :: rest) from rfl] at hmem
      rcases List.mem_cons.mp hmem with hhd | htl
      · subst hhd
        rw [pairToSegment_diagonal hx hy] at hpc
        cases hpc
      · obtain ⟨a, b, hrec⟩ :=
          cornersToTurtleFrom_diagonal first (next :: rest) ⟨pair, htl, hx, hy⟩
        exact ⟨a, b, by
          rw [show cornersToTurtleFrom first (c :: next :: rest) =
            (pairToSegment c next).bind (fun s =>
              (cornersToTurtleFrom first (next :: rest)).bind
                (fun ss => pure (s :: ss))) from rfl, hpc, hrec]; rfl⟩

/-- C8: whenever a corner list contains a consecutive pair (wrapping)
whose displacement is at least 0.001 ft in both coordinates — i.e.
neither purely horizontal nor purely vertical within the tolerance —
`cornersToTurtle` fails with the DiagonalMovementUnsupported error. -/
theorem cornersToTurtle_diagonal_fails (corners : List Point)
    (h : ∃ pair ∈ cyclePairs corners,
      closeTolerance ≤ qabs (pair.2.x - pair.1.x) ∧
      closeTolerance ≤ qabs (pair.2.y - pair.1.y)) :
    ∃ a b, cornersToTurtle corners = .error (.diagonalMovement a b) := by
  cases corners with
  | nil => simp [cyclePairs] at h
  | cons c rest =>
    rw [show cornersToTurtle (c :: rest) = cornersToTurtleFrom c (c :: rest) from rfl]
    exact cornersToTurtleFrom_diagonal c (c :: rest)
      (by rw [cyclePairsFrom_eq_cyclePairs]; exact h)

/-- C8 witness: the corner list [(0,0), (10,5)] raises
DiagonalMovementUnsupported. -/
theorem cornersToTurtle_diagonal_fails_witness :
    ∃ a b, cornersToTurtle [⟨0, 0⟩, ⟨10, 5⟩] = .error (.diagonalMovement a b) :=
  cornersToTurtle_diagonal_fails [⟨0, 0⟩, ⟨10, 5⟩] (by decide)

theorem moveDir_isSome {dir : String} (h : validDirection dir = true)
    (p : Point) (len : ℚ) : ∃ q, moveDir p dir len = some q := by
  unfold validDirection at h
  simp only [Bool.or_eq_true, decide_eq_true_eq] at h
  unfold moveDir
  rcases h with ((h | h) | h) | h <;> subst h <;> simp

theorem replaySegments_ok :
    ∀ (segments : List Segment) (start : Point),
      (∀ seg ∈ segments, validDirection seg.direction = true) →
      ∃ pts, replaySegments start segments = .ok pts ∧
        pts.length = segments.length ∧
        walkEnd start segments =
          some ((start :: pts).getLast (List.cons_ne_nil _ _))
  | [], start, _ => ⟨[], rfl, rfl, rfl⟩
  | seg :: rest, start, h => by
    obtain ⟨q, hq⟩ := moveDir_isSome (h seg (List.mem_cons_self _ _)) start seg.length
    obtain ⟨pts, hok, hlen, hwalk⟩ :=
      replaySegments_ok rest q (fun s hs => h s (List.mem_cons_of_mem _ hs))
    refine ⟨q :: pts, ?_, ?_, ?_⟩
    · rw [replaySegments, hq]
      show Except.map (fun pts => q :: pts) (replaySegments q rest) = _
      rw [hok]
      rfl
    · show pts.length + 1 = rest.length + 1
      rw [hlen]
    · rw [show walkEnd start (seg :: rest) =
        (moveDir start seg.direction seg.length).bind
          (fun p => walkEnd p rest) from rfl, hq]
      show walkEnd q rest = _
      rw [hwalk, List.getLast_cons (List.cons_ne_nil _ _)]

/-- C9: when every direction is valid, `turtleToCorners` succeeds; the
result keeps `start` as its first element and has `segments.length + 1`
corners, except when the final replayed point lies within 0.001 ft of
`start` on both axes, in which case the closing point is dropped and the
length is exactly `segments.length`. -/
theorem turtleToCorners_first_and_length (start : Point) (segments : List Segment)
    (hvalid : ∀ seg ∈ segments, validDirection seg.direction = true) :
    ∃ e pts, walkEnd start segments = some e ∧
      turtleToCorners start segments = .ok pts ∧
      (closeToStart e start → pts.length = segments.length) ∧
      (¬ closeToStart e start → pts.length = segments.length + 1) ∧
      (pts ≠ [] → pts.head? = some start) := by
  obtain ⟨pts0, hok, hlen, hwalk⟩ := replaySegments_ok segments start hvalid
  by_cases hc : closeToStart ((start :: pts0).getLast (List.cons_ne_nil _ _)) start
  · refine ⟨(start :: pts0).getLast (List.cons_ne_nil _ _),
      (start :: pts0).dropLast, hwalk, ?_, ?_, ?_, ?_⟩
    · unfold turtleToCorners
      rw [hok]
      show Except.ok (let corners := start :: pts0; _) = _
      simp only [Except.map]
      rw [if_pos hc]
    · intro _
      simp [List.length_dropLast, hlen]
    · intro hnc
      exact absurd hc hnc
    · intro hne
      cases pts0 with
      | nil => simp at hne
      | cons q tl => simp [List.dropLast]
  · refine ⟨(start :: pts0).getLast (List.cons_ne_nil _ _),
      start :: pts0, hwalk, ?_, ?_, ?_, ?_⟩
    · unfold turtleToCorners
      rw [hok]
      show Except.ok (let corners := start :: pts0; _) = _
      simp only [Except.map]
      rw [if_neg hc]
    · intro hcc
      exact absurd hcc hc
    · intro _
      simp [hlen]
    · intro _
      rfl

/-- C9 witness: the single east segment of length 10 from (0,0) does not
close, so the corner list is [(0,0), (10,0)] with head (0,0) and length
segments.length + 1 = 2. -/
theorem turtleToCorners_first_and_length_witness :
    ∃ e pts, walkEnd ⟨0, 0⟩ [⟨"east", 10⟩] = some e ∧
      turtleToCorners ⟨0, 0⟩ [⟨"east", 10⟩] = .ok pts ∧
      (closeToStart e ⟨0, 0⟩ → pts.length = 1) ∧
      (¬ closeToStart e ⟨0, 0⟩ → pts.length = 2) ∧
      (pts ≠ [] → pts.head? = some ⟨0, 0⟩) :=
  turtleToCorners_first_and_length ⟨0, 0⟩ [⟨"east", 10⟩] (by decide)

theorem pairToSegment_exact {a b : Point} (h : exactAxisStep a b) :
    ∃ s, pairToSegment a b = .ok s ∧
      moveDir a s.direction s.length = some b ∧ validDirection s.direction = true := by
  have htol := closeTolerance_pos
  rcases h with ⟨hx, _⟩ | ⟨hy, hx⟩
  · have hdx : qabs (b.x - a.x) < closeTolerance := by
      rw [hx, sub_self, qabs_zero]
      exact htol
    simp only [pairToSegment]
    rw [if_pos hdx]
    by_cases hdy : b.y - a.y > 0
    · rw [if_pos hdy]
      refine ⟨⟨"south", b.y - a.y⟩, rfl, ?_,
        (by decide : validDirection "south" = true)⟩
      simp only [moveDir, if_true]
      rw [show a.y + (b.y - a.y) = b.y from by ring, hx, if_neg (by decide)]
    · rw [if_neg hdy]
      refine ⟨⟨"north", -(b.y - a.y)⟩, rfl, ?_,
        (by decide : validDirection "north" = true)⟩
      simp only [moveDir, if_true]
      rw [show a.y - -(b.y - a.y) = b.y from by ring, hx]
  · have hdx' : ¬ qabs (b.x - a.x) < closeTolerance := not_lt.mpr hx
    have hdy : qabs (b.y - a.y) < closeTolerance := by
      rw [hy, sub_self, qabs_zero]
      exact htol
    simp only [pairToSegment]
    rw [if_neg hdx', if_pos hdy]
    by_cases hgt : b.x - a.x > 0
    · rw [if_pos hgt]
      refine ⟨⟨"east", b.x - a.x⟩, rfl, ?_,
        (by decide : validDirection "east" = true)⟩
      simp only [moveDir, if_true]
      rw [show a.x + (b.x - a.x) = b.x from by ring, hy,
        if_neg (by decide), if_neg (by decide)]
    · rw [if_neg hgt]
      refine ⟨⟨"west", -(b.x - a.x)⟩, rfl, ?_,
        (by decide : validDirection "west" = true)⟩
      simp only [moveDir, if_true]
      rw [show a.x - -(b.x - a.x) = b.x from by ring, hy,
        if_neg (by decide), if_neg (by decide), if_neg (by decide)]

theorem cornersToTurtleFrom_exact (first : Point) :
    ∀ (c : Point) (rest : List Point),
      (∀ pair ∈ cyclePairsFrom first (c :: rest), exactAxisStep pair.1 pair.2) →
      ∃ segs, cornersToTurtleFrom first (c :: rest) = .ok segs ∧
        replaySegments c segs = .ok (rest ++ [first])
  | c, [], h => by
    obtain ⟨s, hok, hmove, _⟩ :=
      pairToSegment_exact (h (c, first) (by simp [cyclePairsFrom]))
    refine ⟨[s], ?_, ?_⟩
    · rw [show cornersToTurtleFrom first [c] =
        (pairToSegment c first).map (fun s => [s]) from rfl, hok]
      rfl
    · rw [replaySegments, hmove]
      rfl
  | c, next :: rest, h => by
    obtain ⟨s, hok, hmove, _⟩ :=
      pairToSegment_exact (h (c, next) (by simp [cyclePairsFrom]))
    obtain ⟨segs, hoks, hrep⟩ := cornersToTurtleFrom_exact first next rest
      (fun pair hp => h pair (by
        rw [show cyclePairsFrom first (c :: next :: rest) =
          (c, next) :: cyclePairsFrom first (next :: rest) from rfl]
        exact List.mem_cons_of_mem _ hp))
    refine ⟨s :: segs, ?_, ?_⟩
    · rw [show cornersToTurtleFrom first (c :: next :: rest) =
        (pairToSegment c next).bind (fun s =>
          (cornersToTurtleFrom first (next :: rest)).bind
            (fun ss => pure (s :: ss))) from rfl, hok]
      show (cornersToTurtleFrom first (next :: rest)).bind
        (fun ss => pure (s :: ss)) = _
      rw [hoks]
      rfl
    · rw [replaySegments, hmove]
      show Except.map (fun pts => next :: pts) (replaySegments next segs) = _
      rw [hrep]
      rfl

/-- C1 (amended): for every closed polygon whose consecutive corner
pairs (last wrapping to first) each differ in exactly one coordinate,
with the differing coordinate moving by at least the 0.001 ft
classification tolerance, converting to turtle segments and replaying
them from the first corner reproduces the corner list exactly (the
duplicate closing corner is dropped) — in particular within 0.001 ft on
every vertex. -/
theorem roundTrip_exact_of_axis_steps (c : Point) (rest : List Point)
    (h : ∀ pair ∈ cyclePairs (c :: rest), exactAxisStep pair.1 pair.2) :
    roundTrip (c :: rest) = some (c :: rest) := by
  obtain ⟨segs, hok, hrep⟩ := cornersToTurtleFrom_exact c c rest
    (by rw [cyclePairsFrom_eq_cyclePairs]; exact h)
  have hturtle : turtleToCorners c segs = .ok (c :: rest) := by
    unfold turtleToCorners
    rw [hrep]
    show Except.ok
        (if qabs ((((c :: rest) ++ [c]).getLast
              (by exact List.cons_ne_nil _ _)).x - c.x) < closeTolerance ∧
            qabs ((((c :: rest) ++ [c]).getLast
              (by exact List.cons_ne_nil _ _)).y - c.y) < closeTolerance then
          ((c :: rest) ++ [c]).dropLast
        else (c :: rest) ++ [c]) = Except.ok (c :: rest)
    rw [List.getLast_append_singleton]
    rw [if_pos ⟨by rw [sub_self, qabs_zero]; exact closeTolerance_pos,
      by rw [sub_self, qabs_zero]; exact closeTolerance_pos⟩]
    rw [List.dropLast_concat]
  unfold roundTrip
  rw [show cornersToTurtle (c :: rest) = cornersToTurtleFrom c (c :: rest) from rfl,
    hok]
  show (match turtleToCorners ((c :: rest).headD origin) segs with
    | Except.error _ => none
    | Except.ok pts => some pts) = _
  rw [show (c :: rest).headD origin = c from rfl, hturtle]

/-- C1 witness: the 10×10 rectangle round-trips exactly. -/
theorem roundTrip_exact_of_axis_steps_witness :
    roundTrip [⟨0, 0⟩, ⟨10, 0⟩, ⟨10, 10⟩, ⟨0, 10⟩] =
      some [⟨0, 0⟩, ⟨10, 0⟩, ⟨10, 10⟩, ⟨0, 10⟩] :=
  roundTrip_exact_of_axis_steps ⟨0, 0⟩ [⟨10, 0⟩, ⟨10, 10⟩, ⟨0, 10⟩] (by decide)

theorem qabs_of_nonneg {q : ℚ} (h : 0 ≤ q) : qabs q = q := if_neg (not_lt.mpr h)

theorem qabs_of_nonpos {q : ℚ} (h : q ≤ 0) : qabs q = -q := by
  unfold qabs
  rcases lt_or_eq_of_le h with h1 | h1
  · rw [if_pos h1]
  · rw [h1]
    norm_num

theorem wallRunBetween_sameY {c1 c2 : Point} (hy : c1.y = c2.y)
    (hlen : qmax c1.x c2.x - (qmin c1.x c2.x + 1) > 0) :
    wallRunBetween c1 c2 =
      some ⟨true, c1.y, qmin c1.x c2.x + 1,
        qmax c1.x c2.x - (qmin c1.x c2.x + 1)⟩ := by
  simp only [wallRunBetween]
  rw [if_pos hy, if_pos hlen]

theorem wallRunBetween_sameX {c1 c2 : Point} (hy : c1.y ≠ c2.y) (hx : c1.x = c2.x)
    (hlen : qmax c1.y c2.y - (qmin c1.y c2.y + 1) > 0) :
    wallRunBetween c1 c2 =
      some ⟨false, c1.x, qmin c1.y c2.y + 1,
        qmax c1.y c2.y - (qmin c1.y c2.y + 1)⟩ := by
  simp only [wallRunBetween]
  rw [if_neg hy, if_pos hx, if_pos hlen]

/-- C4 (amended): for a closed rectangular shape (sides longer than
2 ft) with no doors, the sum of the emitted straight-run lengths plus
2 ft per corner — each 1×1 ft corner bracket occupies 1 ft of wall line
in each of its two directions — equals the rectangle's perimeter
(the claim's 1 ft per corner leaves the sum 4 ft short). -/
theorem rectangle_wall_length_two_per_corner (x0 y0 x1 y1 : ℚ)
    (hx : x0 + 2 < x1) (hy : y0 + 2 < y1) :
    ((wallRuns [⟨x0, y0⟩, ⟨x1, y0⟩, ⟨x1, y1⟩, ⟨x0, y1⟩]).map Run.runLength).sum +
      2 * (([⟨x0, y0⟩, ⟨x1, y0⟩, ⟨x1, y1⟩, ⟨x0, y1⟩] : List Point).length : ℚ) =
    perimeterOf [⟨x0, y0⟩, ⟨x1, y0⟩, ⟨x1, y1⟩, ⟨x0, y1⟩] := by
  have h1 : x0 < x1 := by linarith
  have h2 : y0 < y1 := by linarith
  have hp1 : ¬((x1 - x0) * (y1 - y0) < 0) := by nlinarith
  have hp2 : ¬((x0 - x1) * (y0 - y1) < 0) := by nlinarith
  have hpieces : (cornerData [⟨x0,y0⟩,⟨x1,y0⟩,⟨x1,y1⟩,⟨x0,y1⟩]).map
      (fun c => Point.mk c.pieceX c.pieceY)
      = [⟨x0,y0⟩, ⟨x1-1,y0⟩, ⟨x1-1,y1-1⟩, ⟨x0,y1-1⟩] := by
    simp [cornerData, isInteriorCorner, cornerCross, inferCornerType, prevCorner,
      nextCorner, getCornerPosition, getInteriorPoint, origin, List.range_succ,
      exteriorCornerMap, interiorCornerMap, h1, h2, h1.le, h2.le,
      not_lt.mpr h1.le, not_lt.mpr h2.le, hp1, hp2]
  rw [show wallRuns [⟨x0, y0⟩, ⟨x1, y0⟩, ⟨x1, y1⟩, ⟨x0, y1⟩] =
    (cyclePairs ((cornerData [⟨x0, y0⟩, ⟨x1, y0⟩, ⟨x1, y1⟩, ⟨x0, y1⟩]).map
      (fun c => Point.mk c.pieceX c.pieceY))).filterMap
        (fun p => wallRunBetween p.1 p.2) from rfl, hpieces]
  have e1 : x0 ≤ x1 - 1 := by linarith
  have e2 : y0 ≤ y1 - 1 := by linarith
  rw [show cyclePairs [(⟨x0,y0⟩ : Point), ⟨x1-1,y0⟩, ⟨x1-1,y1-1⟩, ⟨x0,y1-1⟩] =
    [((⟨x0,y0⟩ : Point), (⟨x1-1,y0⟩ : Point)), (⟨x1-1,y0⟩, ⟨x1-1,y1-1⟩),
      (⟨x1-1,y1-1⟩, ⟨x0,y1-1⟩), (⟨x0,y1-1⟩, ⟨x0,y0⟩)] from rfl]
  rw [List.filterMap_cons, List.filterMap_cons, List.filterMap_cons,
    List.filterMap_cons]
  rw [@wallRunBetween_sameY ⟨x0,y0⟩ ⟨x1-1,y0⟩ rfl
      (by simp only [qmin, qmax]; rw [if_pos e1, if_pos e1]; linarith),
    @wallRunBetween_sameX ⟨x1-1,y0⟩ ⟨x1-1,y1-1⟩
      (show ((y0 : ℚ) ≠ y1 - 1) from by intro hcon; linarith) rfl
      (by simp only [qmin, qmax]; rw [if_pos e2, if_pos e2]; linarith),
    @wallRunBetween_sameY ⟨x1-1,y1-1⟩ ⟨x0,y1-1⟩ rfl
      (by
        simp only [qmin, qmax]
        rw [if_neg (show ¬(x1 - 1 ≤ x0) from by linarith),
          if_neg (show ¬(x1 - 1 ≤ x0) from by linarith)]
        linarith),
    @wallRunBetween_sameX ⟨x0,y1-1⟩ ⟨x0,y0⟩
      (show ((y1 : ℚ) - 1 ≠ y0) from by intro hcon; linarith) rfl
      (by
        simp only [qmin, qmax]
        rw [if_neg (show ¬(y1 - 1 ≤ y0) from by linarith),
          if_neg (show ¬(y1 - 1 ≤ y0) from by linarith)]
        linarith)]
  simp only [qmin, qmax, if_pos e1, if_pos e2,
    if_neg (show ¬(x1 - 1 ≤ x0) from by linarith),
    if_neg (show ¬(y1 - 1 ≤ y0) from by linarith),
    List.filterMap_nil, List.map_cons, List.map_nil, List.sum_cons, List.sum_nil,
    List.length_cons, List.length_nil]
  rw [show perimeterOf [⟨x0, y0⟩, ⟨x1, y0⟩, ⟨x1, y1⟩, ⟨x0, y1⟩] =
    qabs (x1 - x0) + qabs (y0 - y0) + (qabs (x1 - x1) + qabs (y1 - y0)) +
      (qabs (x0 - x1) + qabs (y1 - y1)) + (qabs (x0 - x0) + qabs (y0 - y1)) + 0 from by
    simp [perimeterOf, cyclePairs]; ring]
  rw [qabs_of_nonneg (by linarith : (0:ℚ) ≤ x1 - x0),
    qabs_of_nonneg (by linarith : (0:ℚ) ≤ y1 - y0),
    qabs_of_nonpos (by linarith : x0 - x1 ≤ 0),
    qabs_of_nonpos (by linarith : y0 - y1 ≤ 0)]
  norm_num [qabs_zero]
  ring

/-- C4 witness: the 10×10 rectangle at the origin. -/
theorem rectangle_wall_length_two_per_corner_witness :
    ((wallRuns [⟨0, 0⟩, ⟨10, 0⟩, ⟨10, 10⟩, ⟨0, 10⟩]).map Run.runLength).sum +
      2 * (([⟨0, 0⟩, ⟨10, 0⟩, ⟨10, 10⟩, ⟨0, 10⟩] : List Point).length : ℚ) =
    perimeterOf [⟨0, 0⟩, ⟨10, 0⟩, ⟨10, 10⟩, ⟨0, 10⟩] :=
  rectangle_wall_length_two_per_corner 0 0 10 10 (by norm_num) (by norm_num)

theorem doorPosOnSegment_scrub (isHorizontal : Bool) (p1 : Point) (door : Door) :
    doorPosOnSegment isHorizontal p1 (scrubDoorWidths door) =
      doorPosOnSegment isHorizontal p1 door := rfl

theorem insertDoorByPos_scrub (pos : Door → ℚ)
    (hpos : ∀ e, pos (scrubDoorWidths e) = pos e) (d : Door) :
    ∀ l : List Door,
      insertDoorByPos pos (scrubDoorWidths d) (l.map scrubDoorWidths) =
        (insertDoorByPos pos d l).map scrubDoorWidths
  | [] => rfl
  | e :: rest => by
    simp only [insertDoorByPos, List.map_cons, hpos]
    split_ifs with hle
    · rfl
    · rw [List.map_cons, ← insertDoorByPos_scrub pos hpos d rest]

theorem sortDoorsByPos_scrub (isHorizontal : Bool) (p1 : Point) :
    ∀ doors : List Door,
      sortDoorsByPos isHorizontal p1 (doors.map scrubDoorWidths) =
        (sortDoorsByPos isHorizontal p1 doors).map scrubDoorWidths
  | [] => rfl
  | d :: rest => by
    simp only [sortDoorsByPos, List.map_cons]
    rw [sortDoorsByPos_scrub isHorizontal p1 rest]
    exact insertDoorByPos_scrub _ (fun e => doorPosOnSegment_scrub _ _ e) d _

/-- C10: in the 3D wall-cutout profile every door opening's width comes
only from `bayWidth`: (1) forgetting the `width` and `doorWidth` fields
of every door leaves the profile unchanged; (2) a door without
`bayWidth` produces the same profile as the same door with
`bayWidth = 10` (the default); (3) by contrast, the door-mesh builder
falls back `bayWidth`, then `width`, then 10, so a door with no
`bayWidth` and nonzero `width` w gets a mesh bay width of w while the
profile's cutout width expression stays 10. -/
theorem profile_cutout_width_only_bayWidth :
    (∀ (p1 p2 : Point) (segmentLength wallHeight : ℚ) (doors : List Door)
        (isHorizontal isVertical : Bool),
      generateWallProfileWithDoors p1 p2 segmentLength wallHeight
          (doors.map scrubDoorWidths) isHorizontal isVertical =
        generateWallProfileWithDoors p1 p2 segmentLength wallHeight doors
          isHorizontal isVertical) ∧
    (∀ door : Door, door.bayWidth = none →
      ∀ (p1 p2 : Point) (segmentLength wallHeight : ℚ)
          (isHorizontal isVertical : Bool),
        generateWallProfileWithDoors p1 p2 segmentLength wallHeight [door]
            isHorizontal isVertical =
          generateWallProfileWithDoors p1 p2 segmentLength wallHeight
            [{ door with bayWidth := some 10 }] isHorizontal isVertical) ∧
    (∀ (door : Door) (w : ℚ), door.bayWidth = none → door.width = some w →
      w ≠ 0 → buildDoorMeshBayWidth door = w ∧ jsOrNum door.bayWidth 10 = 10) := by
  refine ⟨?_, ?_, ?_⟩
  · intro p1 p2 segmentLength wallHeight doors isHorizontal isVertical
    simp only [generateWallProfileWithDoors]
    rw [sortDoorsByPos_scrub, List.foldl_map]
    rfl
  · intro door hb p1 p2 segmentLength wallHeight isHorizontal isVertical
    unfold generateWallProfileWithDoors
    simp only [sortDoorsByPos, insertDoorByPos, List.foldl, jsOrNum, hb]
    norm_num
    rw [show doorPosOnSegment isHorizontal p1
        { id := door.id, wallId := door.wallId, x := door.x, y := door.y,
          doorType := door.doorType, orientation := door.orientation,
          facing := door.facing, bayWidth := some 10, width := door.width,
          doorWidth := door.doorWidth } =
      doorPosOnSegment isHorizontal p1 door from rfl]
  · intro door w hb hw hw0
    constructor
    · unfold buildDoorMeshBayWidth jsOrNum
      rw [hb, hw]
      simp only [if_neg hw0]
    · rw [hb]
      rfl

/-- C10 witness: a door with no `bayWidth`, `width = 8`,
`doorWidth = 36`: the profile treats it exactly like `bayWidth = 10`,
while the mesh builder picks bay width 8 from `width`. -/
theorem profile_cutout_width_only_bayWidth_witness :
    generateWallProfileWithDoors ⟨0, 0⟩ ⟨20, 0⟩ 20 15
        [⟨none, none, 10, 0, some "bay", none, none, none, some 8, some 36⟩]
        true false =
      generateWallProfileWithDoors ⟨0, 0⟩ ⟨20, 0⟩ 20 15
        [⟨none, none, 10, 0, some "bay", none, none, some 10, some 8, some 36⟩]
        true false ∧
    buildDoorMeshBayWidth
        ⟨none, none, 10, 0, some "bay", none, none, none, some 8, some 36⟩ = 8 ∧
    jsOrNum
        (Door.bayWidth ⟨none, none, 10, 0, some "bay", none, none, none, some 8, some 36⟩)
        10 = 10 :=
  ⟨profile_cutout_width_only_bayWidth.2.1
      ⟨none, none, 10, 0, some "bay", none, none, none, some 8, some 36⟩ rfl
      ⟨0, 0⟩ ⟨20, 0⟩ 20 15 true false,
    (profile_cutout_width_only_bayWidth.2.2
      ⟨none, none, 10, 0, some "bay", none, none, none, some 8, some 36⟩ 8 rfl rfl
      (by norm_num)).1,
    (profile_cutout_width_only_bayWidth.2.2
      ⟨none, none, 10, 0, some "bay", none, none, none, some 8, some 36⟩ 8 rfl rfl
      (by norm_num)).2⟩

theorem walkPos_append (l1 l2 : List Segment) :
    ∀ p : Point, walkPos p (l1 ++ l2) = walkPos (walkPos p l1) l2 := by
  induction l1 with
  | nil => intro p; rfl
  | cons seg rest ih => intro p; exact ih _

theorem convertTurtleToPointsAux_length :
    ∀ (segs : List Segment) (cur : Point),
      (convertTurtleToPointsAux cur segs).length = segs.length
  | [], _ => rfl
  | seg :: rest, cur => by
    simp only [convertTurtleToPointsAux, List.length_cons]
    rw [convertTurtleToPointsAux_length rest]

theorem convertTurtleToPointsAux_getD :
    ∀ (segs : List Segment) (cur : Point) (i : ℕ), i < segs.length →
      tpPos ((convertTurtleToPointsAux cur segs).getD i defaultTurtlePoint) =
        walkPos cur (segs.take (i + 1))
  | [], _, i, hi => by simp at hi
  | seg :: rest, cur, 0, _ => by
    simp only [convertTurtleToPointsAux, List.getD_cons_zero, List.take_succ_cons,
      List.take_zero, walkPos]
    rfl
  | seg :: rest, cur, i + 1, hi => by
    simp only [convertTurtleToPointsAux, List.getD_cons_succ, List.take_succ_cons]
    rw [convertTurtleToPointsAux_getD rest _ i (by simpa using Nat.lt_of_succ_lt_succ hi)]
    rfl

theorem convertTurtleToPoints_length (w : PartitionWall) :
    (convertTurtleToPoints w).length = w.segments.length + 1 := by
  simp only [convertTurtleToPoints, List.length_cons]
  rw [convertTurtleToPointsAux_length]

theorem convertTurtleToPoints_getD (w : PartitionWall) :
    ∀ i : ℕ, i ≤ w.segments.length →
      tpPos ((convertTurtleToPoints w).getD i defaultTurtlePoint) =
        walkPos w.start (w.segments.take i)
  | 0, _ => by
    simp only [convertTurtleToPoints, List.getD_cons_zero, List.take_zero, walkPos]
    rfl
  | i + 1, hi => by
    simp only [convertTurtleToPoints, List.getD_cons_succ]
    exact convertTurtleToPointsAux_getD w.segments w.start i (by omega)

theorem walkPos_take_succ (segs : List Segment) (p : Point) (i : ℕ) (hi : i < segs.length) :
    walkPos p (segs.take (i + 1)) =
      (moveDir (walkPos p (segs.take i)) (segs.getD i ⟨"", 0⟩).direction
        (segs.getD i ⟨"", 0⟩).length).getD (walkPos p (segs.take i)) := by
  rw [List.take_succ, walkPos_append]
  have hg : segs[i]? = some (segs.getD i ⟨"", 0⟩) := by
    rw [List.getD_eq_getElem?_getD]
    cases h : segs[i]? with
    | none =>
      rw [List.getElem?_eq_none_iff] at h
      omega
    | some v => rfl
  rw [hg]
  rfl

theorem perp_of_horizontal {pd d : String} (hv : validDirection pd = true)
    (hd : isHorizontalDir d = true) (hperp : perpendicularDirs pd d) :
    pd = "north" ∨ pd = "south" := by
  unfold validDirection at hv
  simp only [Bool.or_eq_true, decide_eq_true_eq] at hv
  rcases hv with ((h | h) | h) | h
  · exact Or.inl h
  · exact Or.inr h
  · exact absurd (by rw [h, hd]; rfl) hperp
  · exact absurd (by rw [h, hd]; rfl) hperp

theorem perp_of_vertical {pd d : String} (hv : validDirection pd = true)
    (hd : isHorizontalDir d = false) (hperp : perpendicularDirs pd d) :
    pd = "east" ∨ pd = "west" := by
  unfold validDirection at hv
  simp only [Bool.or_eq_true, decide_eq_true_eq] at hv
  rcases hv with ((h | h) | h) | h
  · exact absurd (by rw [h, hd]; rfl) hperp
  · exact absurd (by rw [h, hd]; rfl) hperp
  · exact Or.inl h
  · exact Or.inr h
/-- C3 (amended): for an open partition path whose segments all use legal
directions, have positive length and always turn, the run computed by
`generatePartitionWalls` for segment `i` equals the amended reservation
formula `expectedPartitionRun`: single segments reserve 0.5 ft at both
ends; first segments reserve 0.5 ft at the free end and 1 ft at the
joined end; last segments mirror this only when running east or south,
while west- or north-running last segments reserve 1.5 ft at the free end
and nothing at the joined end; middle segments reserve 1 ft at their
west (resp. north) end only. -/
theorem partitionRunAt_expected (w : PartitionWall)
    (hvalid : ∀ seg ∈ w.segments, validDirection seg.direction = true)
    (hpos : ∀ seg ∈ w.segments, 0 < seg.length)
    (hturn : alwaysTurns w.segments)
    (i : ℕ) (hi : i < w.segments.length) :
    partitionRunAt w.segments (convertTurtleToPoints w) i =
      expectedPartitionRun w i := by
  have hlen := convertTurtleToPoints_length w
  have hAx := congrArg Point.x (convertTurtleToPoints_getD w i (by omega))
  have hAy := congrArg Point.y (convertTurtleToPoints_getD w i (by omega))
  have hB := convertTurtleToPoints_getD w (i + 1) (by omega)
  have hAB := walkPos_take_succ w.segments w.start i hi
  have hmem : w.segments.getD i ⟨"", 0⟩ ∈ w.segments := by
    rw [List.getD_eq_getElem?_getD, List.getElem?_eq_getElem hi]
    exact List.getElem_mem hi
  have hd := hvalid _ hmem
  have hl := hpos _ hmem
  have hlast2 : (convertTurtleToPoints w).length - 2 = w.segments.length - 1 := by
    omega
  -- previous-segment facts for i > 0
  have hprev : 0 < i →
      (w.segments.getD (i - 1) ⟨"", 0⟩).direction = "north" ∨
      (w.segments.getD (i - 1) ⟨"", 0⟩).direction = "south" ∨
      (w.segments.getD (i - 1) ⟨"", 0⟩).direction = "east" ∨
      (w.segments.getD (i - 1) ⟨"", 0⟩).direction = "west" := by
    intro hipos
    have hpmem : w.segments.getD (i - 1) ⟨"", 0⟩ ∈ w.segments := by
      have hlt : i - 1 < w.segments.length := by omega
      rw [List.getD_eq_getElem?_getD, List.getElem?_eq_getElem hlt]
      exact List.getElem_mem hlt
    have := hvalid _ hpmem
    unfold validDirection at this
    simp only [Bool.or_eq_true, decide_eq_true_eq] at this
    tauto
  have hperp : 0 < i →
      perpendicularDirs (w.segments.getD (i - 1) ⟨"", 0⟩).direction
        (w.segments.getD i ⟨"", 0⟩).direction := by
    intro hipos
    have := hturn (i - 1) (by omega)
    rwa [show i - 1 + 1 = i from by omega] at this
  unfold validDirection at hd
  simp only [Bool.or_eq_true, decide_eq_true_eq] at hd
  rcases hd with ((hde | hde) | hde) | hde
  · -- north
    have hBpt : walkPos w.start (w.segments.take (i + 1)) =
        ⟨(walkPos w.start (w.segments.take i)).x,
          (walkPos w.start (w.segments.take i)).y -
            (w.segments.getD i ⟨"", 0⟩).length⟩ := by
      rw [hAB, hde]
      rfl
    have hBx := congrArg Point.x (hB.trans hBpt)
    have hBy := congrArg Point.y (hB.trans hBpt)
    have hpd : 0 < i →
        (w.segments.getD (i - 1) ⟨"", 0⟩).direction = "east" ∨
        (w.segments.getD (i - 1) ⟨"", 0⟩).direction = "west" := by
      intro hipos
      rcases hprev hipos with h | h | h | h
      · exact absurd (by rw [h, hde]) (hperp hipos)
      · exact absurd (by rw [h, hde]; rfl) (hperp hipos)
      · exact Or.inl h
      · exact Or.inr h
    have hax : ((convertTurtleToPoints w).getD i defaultTurtlePoint).x =
        (walkPos w.start (List.take i w.segments)).x := hAx
    have hay : ((convertTurtleToPoints w).getD i defaultTurtlePoint).y =
        (walkPos w.start (List.take i w.segments)).y := hAy
    have hbx : ((convertTurtleToPoints w).getD (i + 1) defaultTurtlePoint).x =
        (walkPos w.start (List.take i w.segments)).x := hBx
    have hby : ((convertTurtleToPoints w).getD (i + 1) defaultTurtlePoint).y =
        (walkPos w.start (List.take i w.segments)).y -
          (w.segments.getD i ⟨"", 0⟩).length := hBy
    have hbwx : (walkPos w.start (List.take (i + 1) w.segments)).x =
        (walkPos w.start (List.take i w.segments)).x := by
      simpa using congrArg Point.x hBpt
    have hbwy : (walkPos w.start (List.take (i + 1) w.segments)).y =
        (walkPos w.start (List.take i w.segments)).y -
          (w.segments.getD i ⟨"", 0⟩).length := by
      simpa using congrArg Point.y hBpt
    have hsub : w.segments.length + 1 - 2 = w.segments.length - 1 := by omega
    have hyne : ¬((walkPos w.start (List.take i w.segments)).y =
        (walkPos w.start (List.take i w.segments)).y -
          (w.segments.getD i ⟨"", 0⟩).length) := by
      intro h
      linarith
    have hngt : ¬((walkPos w.start (List.take i w.segments)).y <
        (walkPos w.start (List.take i w.segments)).y -
          (w.segments.getD i ⟨"", 0⟩).length) := by
      intro h
      linarith
    have hnle : ¬((walkPos w.start (List.take i w.segments)).y ≤
        (walkPos w.start (List.take i w.segments)).y -
          (w.segments.getD i ⟨"", 0⟩).length) := by
      intro h
      linarith
    have hl0 : (0 : ℚ) ≤ (w.segments.getD i ⟨"", 0⟩).length := le_of_lt hl
    by_cases hfirst : i = 0
    · subst hfirst
      have hLnle : ¬((w.segments.getD 0 ⟨"", 0⟩).length ≤ 0) := by linarith
      have hyne0 : ¬((walkPos w.start ([] : List Segment)).y =
          (walkPos w.start ([] : List Segment)).y -
            (w.segments.getD 0 ⟨"", 0⟩).length) := by
        intro h
        linarith
      have hngt0 : ¬((walkPos w.start ([] : List Segment)).y <
          (walkPos w.start ([] : List Segment)).y -
            (w.segments.getD 0 ⟨"", 0⟩).length) := by
        intro h
        linarith
      by_cases hsingle : w.segments.length = 1
      · simp [partitionRunAt, expectedPartitionRun, hde, hlen, hax, hay, hbx, hby,
          hbwx, hbwy, hsub, hyne, hngt, hnle, hLnle, hyne0, hngt0, hl, hl0, hsingle,
          qmin, qmax, -List.getD_eq_getElem?_getD]
      · have hne : ¬(0 = w.segments.length - 1) := by omega
        simp [partitionRunAt, expectedPartitionRun, hde, hlen, hax, hay, hbx, hby,
          hbwx, hbwy, hsub, hyne, hngt, hnle, hLnle, hyne0, hngt0, hl, hl0, hsingle,
          hne, qmin, qmax, -List.getD_eq_getElem?_getD]
    · have hipos : 0 < i := Nat.pos_of_ne_zero hfirst
      have hn1 : ¬(w.segments.length = 1) := by omega
      by_cases hlastc : i = w.segments.length - 1
      · subst hlastc
        rcases hpd hipos with hpdd | hpdd <;>
          simp [partitionRunAt, expectedPartitionRun, hde, hlen, hax, hay, hbx, hby,
            hbwx, hbwy, hsub, hyne, hngt, hnle, hl, hl0, hipos, hfirst, hn1, hpdd,
            qmin, qmax, -List.getD_eq_getElem?_getD]
      · rcases hpd hipos with hpdd | hpdd <;>
          simp [partitionRunAt, expectedPartitionRun, hde, hlen, hax, hay, hbx, hby,
            hbwx, hbwy, hsub, hyne, hngt, hnle, hl, hl0, hipos, hfirst, hn1, hpdd,
            hlastc, qmin, qmax, -List.getD_eq_getElem?_getD]
  · -- south
    have hBpt : walkPos w.start (w.segments.take (i + 1)) =
        ⟨(walkPos w.start (w.segments.take i)).x,
          (walkPos w.start (w.segments.take i)).y +
            (w.segments.getD i ⟨"", 0⟩).length⟩ := by
      rw [hAB, hde]
      rfl
    have hBx := congrArg Point.x (hB.trans hBpt)
    have hBy := congrArg Point.y (hB.trans hBpt)
    have hpd : 0 < i →
        (w.segments.getD (i - 1) ⟨"", 0⟩).direction = "east" ∨
        (w.segments.getD (i - 1) ⟨"", 0⟩).direction = "west" := by
      intro hipos
      rcases hprev hipos with h | h | h | h
      · exact absurd (by rw [h, hde]; rfl) (hperp hipos)
      · exact absurd (by rw [h, hde]) (hperp hipos)
      · exact Or.inl h
      · exact Or.inr h
    have hax : ((convertTurtleToPoints w).getD i defaultTurtlePoint).x =
        (walkPos w.start (List.take i w.segments)).x := hAx
    have hay : ((convertTurtleToPoints w).getD i defaultTurtlePoint).y =
        (walkPos w.start (List.take i w.segments)).y := hAy
    have hbx : ((convertTurtleToPoints w).getD (i + 1) defaultTurtlePoint).x =
        (walkPos w.start (List.take i w.segments)).x := hBx
    have hby : ((convertTurtleToPoints w).getD (i + 1) defaultTurtlePoint).y =
        (walkPos w.start (List.take i w.segments)).y +
          (w.segments.getD i ⟨"", 0⟩).length := hBy
    have hbwx : (walkPos w.start (List.take (i + 1) w.segments)).x =
        (walkPos w.start (List.take i w.segments)).x := by
      simpa using congrArg Point.x hBpt
    have hbwy : (walkPos w.start (List.take (i + 1) w.segments)).y =
        (walkPos w.start (List.take i w.segments)).y +
          (w.segments.getD i ⟨"", 0⟩).length := by
      simpa using congrArg Point.y hBpt
    have hsub : w.segments.length + 1 - 2 = w.segments.length - 1 := by omega
    have hyne : ¬((walkPos w.start (List.take i w.segments)).y =
        (walkPos w.start (List.take i w.segments)).y +
          (w.segments.getD i ⟨"", 0⟩).length) := by
      intro h
      linarith
    have hgt : (walkPos w.start (List.take i w.segments)).y <
        (walkPos w.start (List.take i w.segments)).y +
          (w.segments.getD i ⟨"", 0⟩).length := by linarith
    have hle : (walkPos w.start (List.take i w.segments)).y ≤
        (walkPos w.start (List.take i w.segments)).y +
          (w.segments.getD i ⟨"", 0⟩).length := le_of_lt hgt
    have hl0 : (0 : ℚ) ≤ (w.segments.getD i ⟨"", 0⟩).length := le_of_lt hl
    by_cases hfirst : i = 0
    · subst hfirst
      have hLne : ¬((w.segments.getD 0 ⟨"", 0⟩).length = 0) := by linarith
      by_cases hsingle : w.segments.length = 1
      · simp [partitionRunAt, expectedPartitionRun, hde, hlen, hax, hay, hbx, hby,
          hbwx, hbwy, hsub, hyne, hgt, hle, hLne, hl, hl0, hsingle, qmin, qmax,
          -List.getD_eq_getElem?_getD]
      · have hne : ¬(0 = w.segments.length - 1) := by omega
        simp [partitionRunAt, expectedPartitionRun, hde, hlen, hax, hay, hbx, hby,
          hbwx, hbwy, hsub, hyne, hgt, hle, hLne, hl, hl0, hsingle, hne, qmin, qmax,
          -List.getD_eq_getElem?_getD]
    · have hipos : 0 < i := Nat.pos_of_ne_zero hfirst
      have hn1 : ¬(w.segments.length = 1) := by omega
      by_cases hlastc : i = w.segments.length - 1
      · subst hlastc
        rcases hpd hipos with hpdd | hpdd <;>
          simp [partitionRunAt, expectedPartitionRun, hde, hlen, hax, hay, hbx, hby,
            hbwx, hbwy, hsub, hyne, hgt, hle, hl, hl0, hipos, hfirst, hn1, hpdd,
            qmin, qmax, -List.getD_eq_getElem?_getD]
      · rcases hpd hipos with hpdd | hpdd <;>
          simp [partitionRunAt, expectedPartitionRun, hde, hlen, hax, hay, hbx, hby,
            hbwx, hbwy, hsub, hyne, hgt, hle, hl, hl0, hipos, hfirst, hn1, hpdd,
            hlastc, qmin, qmax, -List.getD_eq_getElem?_getD]
  · -- east
    have hBpt : walkPos w.start (w.segments.take (i + 1)) =
        ⟨(walkPos w.start (w.segments.take i)).x + (w.segments.getD i ⟨"", 0⟩).length,
          (walkPos w.start (w.segments.take i)).y⟩ := by
      rw [hAB, hde]
      rfl
    have hBx := congrArg Point.x (hB.trans hBpt)
    have hBy := congrArg Point.y (hB.trans hBpt)
    -- prev is vertical when i > 0
    have hpd : 0 < i →
        (w.segments.getD (i - 1) ⟨"", 0⟩).direction = "north" ∨
        (w.segments.getD (i - 1) ⟨"", 0⟩).direction = "south" := by
      intro hipos
      rcases hprev hipos with h | h | h | h
      · exact Or.inl h
      · exact Or.inr h
      · exact absurd (by rw [h, hde]) (hperp hipos)
      · exact absurd (by rw [h, hde]; rfl) (hperp hipos)
    have hax : ((convertTurtleToPoints w).getD i defaultTurtlePoint).x =
        (walkPos w.start (List.take i w.segments)).x := hAx
    have hay : ((convertTurtleToPoints w).getD i defaultTurtlePoint).y =
        (walkPos w.start (List.take i w.segments)).y := hAy
    have hbx : ((convertTurtleToPoints w).getD (i + 1) defaultTurtlePoint).x =
        (walkPos w.start (List.take i w.segments)).x +
          (w.segments.getD i ⟨"", 0⟩).length := hBx
    have hby : ((convertTurtleToPoints w).getD (i + 1) defaultTurtlePoint).y =
        (walkPos w.start (List.take i w.segments)).y := hBy
    have hbwx : (walkPos w.start (List.take (i + 1) w.segments)).x =
        (walkPos w.start (List.take i w.segments)).x +
          (w.segments.getD i ⟨"", 0⟩).length := by
      simpa using congrArg Point.x hBpt
    have hbwy : (walkPos w.start (List.take (i + 1) w.segments)).y =
        (walkPos w.start (List.take i w.segments)).y := by
      simpa using congrArg Point.y hBpt
    have hsub : w.segments.length + 1 - 2 = w.segments.length - 1 := by omega
    have hgt : (walkPos w.start (List.take i w.segments)).x <
        (walkPos w.start (List.take i w.segments)).x +
          (w.segments.getD i ⟨"", 0⟩).length := by linarith
    have hle : (walkPos w.start (List.take i w.segments)).x ≤
        (walkPos w.start (List.take i w.segments)).x +
          (w.segments.getD i ⟨"", 0⟩).length := le_of_lt hgt
    have hl0 : (0 : ℚ) ≤ (w.segments.getD i ⟨"", 0⟩).length := le_of_lt hl
    by_cases hfirst : i = 0
    · subst hfirst
      by_cases hsingle : w.segments.length = 1
      · simp [partitionRunAt, expectedPartitionRun, hde, hlen, hax, hay, hbx, hby,
          hbwx, hbwy, hsub, hgt, hle, hl, hl0, hsingle, qmin, qmax,
          -List.getD_eq_getElem?_getD]
      · have hne : ¬(0 = w.segments.length - 1) := by omega
        simp [partitionRunAt, expectedPartitionRun, hde, hlen, hax, hay, hbx, hby,
          hbwx, hbwy, hsub, hgt, hle, hl, hl0, hsingle, hne, qmin, qmax,
          -List.getD_eq_getElem?_getD]
    · have hipos : 0 < i := Nat.pos_of_ne_zero hfirst
      have hn1 : ¬(w.segments.length = 1) := by omega
      by_cases hlastc : i = w.segments.length - 1
      · subst hlastc
        rcases hpd hipos with hpdd | hpdd <;>
          simp [partitionRunAt, expectedPartitionRun, hde, hlen, hax, hay, hbx, hby,
            hbwx, hbwy, hsub, hgt, hle, hl, hl0, hipos, hfirst, hn1, hpdd,
            qmin, qmax, -List.getD_eq_getElem?_getD]
      · rcases hpd hipos with hpdd | hpdd <;>
          simp [partitionRunAt, expectedPartitionRun, hde, hlen, hax, hay, hbx, hby,
            hbwx, hbwy, hsub, hgt, hle, hl, hl0, hipos, hfirst, hn1, hpdd, hlastc,
            qmin, qmax, -List.getD_eq_getElem?_getD]
  · -- west
    have hBpt : walkPos w.start (w.segments.take (i + 1)) =
        ⟨(walkPos w.start (w.segments.take i)).x -
            (w.segments.getD i ⟨"", 0⟩).length,
          (walkPos w.start (w.segments.take i)).y⟩ := by
      rw [hAB, hde]
      rfl
    have hBx := congrArg Point.x (hB.trans hBpt)
    have hBy := congrArg Point.y (hB.trans hBpt)
    have hpd : 0 < i →
        (w.segments.getD (i - 1) ⟨"", 0⟩).direction = "north" ∨
        (w.segments.getD (i - 1) ⟨"", 0⟩).direction = "south" := by
      intro hipos
      rcases hprev hipos with h | h | h | h
      · exact Or.inl h
      · exact Or.inr h
      · exact absurd (by rw [h, hde]; rfl) (hperp hipos)
      · exact absurd (by rw [h, hde]) (hperp hipos)
    have hax : ((convertTurtleToPoints w).getD i defaultTurtlePoint).x =
        (walkPos w.start (List.take i w.segments)).x := hAx
    have hay : ((convertTurtleToPoints w).getD i defaultTurtlePoint).y =
        (walkPos w.start (List.take i w.segments)).y := hAy
    have hbx : ((convertTurtleToPoints w).getD (i + 1) defaultTurtlePoint).x =
        (walkPos w.start (List.take i w.segments)).x -
          (w.segments.getD i ⟨"", 0⟩).length := hBx
    have hby : ((convertTurtleToPoints w).getD (i + 1) defaultTurtlePoint).y =
        (walkPos w.start (List.take i w.segments)).y := hBy
    have hbwx : (walkPos w.start (List.take (i + 1) w.segments)).x =
        (walkPos w.start (List.take i w.segments)).x -
          (w.segments.getD i ⟨"", 0⟩).length := by
      simpa using congrArg Point.x hBpt
    have hbwy : (walkPos w.start (List.take (i + 1) w.segments)).y =
        (walkPos w.start (List.take i w.segments)).y := by
      simpa using congrArg Point.y hBpt
    have hsub : w.segments.length + 1 - 2 = w.segments.length - 1 := by omega
    have hngt : ¬((walkPos w.start (List.take i w.segments)).x <
        (walkPos w.start (List.take i w.segments)).x -
          (w.segments.getD i ⟨"", 0⟩).length) := by
      intro h
      linarith
    have hnle : ¬((walkPos w.start (List.take i w.segments)).x ≤
        (walkPos w.start (List.take i w.segments)).x -
          (w.segments.getD i ⟨"", 0⟩).length) := by
      intro h
      linarith
    have hl0 : (0 : ℚ) ≤ (w.segments.getD i ⟨"", 0⟩).length := le_of_lt hl
    by_cases hfirst : i = 0
    · subst hfirst
      have hLnle : ¬((w.segments.getD 0 ⟨"", 0⟩).length ≤ 0) := by linarith
      have hngt0 : ¬((walkPos w.start ([] : List Segment)).x <
          (walkPos w.start ([] : List Segment)).x -
            (w.segments.getD 0 ⟨"", 0⟩).length) := by
        intro h
        linarith
      by_cases hsingle : w.segments.length = 1
      · simp [partitionRunAt, expectedPartitionRun, hde, hlen, hax, hay, hbx, hby,
          hbwx, hbwy, hsub, hngt, hnle, hLnle, hngt0, hl, hl0, hsingle, qmin, qmax,
          -List.getD_eq_getElem?_getD]
      · have hne : ¬(0 = w.segments.length - 1) := by omega
        simp [partitionRunAt, expectedPartitionRun, hde, hlen, hax, hay, hbx, hby,
          hbwx, hbwy, hsub, hngt, hnle, hLnle, hngt0, hl, hl0, hsingle, hne,
          qmin, qmax, -List.getD_eq_getElem?_getD]
    · have hipos : 0 < i := Nat.pos_of_ne_zero hfirst
      have hn1 : ¬(w.segments.length = 1) := by omega
      by_cases hlastc : i = w.segments.length - 1
      · subst hlastc
        rcases hpd hipos with hpdd | hpdd <;>
          simp [partitionRunAt, expectedPartitionRun, hde, hlen, hax, hay, hbx, hby,
            hbwx, hbwy, hsub, hngt, hnle, hl, hl0, hipos, hfirst, hn1, hpdd,
            qmin, qmax, -List.getD_eq_getElem?_getD]
      · rcases hpd hipos with hpdd | hpdd <;>
          simp [partitionRunAt, expectedPartitionRun, hde, hlen, hax, hay, hbx, hby,
            hbwx, hbwy, hsub, hngt, hnle, hl, hl0, hipos, hfirst, hn1, hpdd,
            hlastc, qmin, qmax, -List.getD_eq_getElem?_getD]

/-- Closed instance of the C3 theorem: a three-segment south-east-south
path with all hypotheses discharged concretely, checked at the middle
segment. -/
theorem partitionRunAt_expected_witness :
    (∀ seg ∈ ([⟨"south", 10⟩, ⟨"east", 8⟩, ⟨"south", 6⟩] : List Segment),
        validDirection seg.direction = true) ∧
    (∀ seg ∈ ([⟨"south", 10⟩, ⟨"east", 8⟩, ⟨"south", 6⟩] : List Segment),
        0 < seg.length) ∧
    alwaysTurns [⟨"south", 10⟩, ⟨"east", 8⟩, ⟨"south", 6⟩] ∧
    (1 < ([⟨"south", 10⟩, ⟨"east", 8⟩, ⟨"south", 6⟩] : List Segment).length) ∧
    partitionRunAt
        ([⟨"south", 10⟩, ⟨"east", 8⟩, ⟨"south", 6⟩] : List Segment)
        (convertTurtleToPoints ⟨some "p", ⟨0, 0⟩, [⟨"south", 10⟩, ⟨"east", 8⟩, ⟨"south", 6⟩]⟩) 1 =
      expectedPartitionRun ⟨some "p", ⟨0, 0⟩, [⟨"south", 10⟩, ⟨"east", 8⟩, ⟨"south", 6⟩]⟩ 1 :=
  ⟨by decide, by decide,
    by
      intro i hi
      simp only [List.length_cons, List.length_nil] at hi
      have h2 : i < 2 := by omega
      interval_cases i <;> decide,
    by decide,
    partitionRunAt_expected ⟨some "p", ⟨0, 0⟩, [⟨"south", 10⟩, ⟨"east", 8⟩, ⟨"south", 6⟩]⟩
      (by decide) (by decide)
      (by
        intro i hi
        simp only [List.length_cons, List.length_nil] at hi
        have h2 : i < 2 := by omega
        interval_cases i <;> decide)
      1 (by decide)⟩


/-! ### JSON round trip and the assembled document (C2) -/

/-! ### Lemmas: digits and characters -/

theorem charDigitVal_digitChar {d : ℕ} (h : d < 10) :
    charDigitVal (digitChar d) = d := by
  interval_cases d <;> decide

theorem hexVal_hexChar {n : ℕ} (h : n < 16) : hexVal (hexChar n) = n := by
  interval_cases n <;> decide

theorem digitChar_facts {d : ℕ} (h : d < 10) :
    isWsChar (digitChar d) = false ∧ isDigitChar (digitChar d) = true ∧
    digitChar d ≠ ']' ∧ digitChar d ≠ '\x7d' ∧ digitChar d ≠ '"' ∧
    digitChar d ≠ '[' ∧ digitChar d ≠ '\x7b' ∧ digitChar d ≠ 'n' ∧
    digitChar d ≠ 't' ∧ digitChar d ≠ 'f' ∧ digitChar d ≠ '-' ∧
    digitChar d ≠ '.' := by
  interval_cases d <;> exact ⟨by decide, by decide, by decide, by decide,
    by decide, by decide, by decide, by decide, by decide, by decide,
    by decide, by decide⟩

theorem mem_natDigitChars {c : Char} {n : ℕ} (h : c ∈ natDigitChars n) :
    ∃ d, d < 10 ∧ c = digitChar d := by
  simp only [natDigitChars, List.mem_map, List.mem_reverse] at h
  obtain ⟨d, hd, rfl⟩ := h
  exact ⟨d, Nat.digits_lt_base (by norm_num) hd, rfl⟩

theorem mem_padDigits {c : Char} {n k : ℕ} (h : c ∈ padDigits n k) :
    ∃ d, d < 10 ∧ c = digitChar d := by
  simp only [padDigits, List.mem_append, List.mem_replicate] at h
  rcases h with ⟨-, rfl⟩ | h
  · exact ⟨0, by norm_num, rfl⟩
  · exact mem_natDigitChars h

theorem padDigits_length (n k : ℕ) :
    (padDigits n k).length = max k (natDigitChars n).length := by
  simp only [padDigits, List.length_append, List.length_replicate]
  omega

theorem foldl_digit_map (ds : List ℕ) (h : ∀ d ∈ ds, d < 10) :
    ∀ a : ℕ, ds.foldl (fun x d => x * 10 + charDigitVal (digitChar d)) a =
      ds.foldl (fun x d => x * 10 + d) a := by
  induction ds with
  | nil => intro a; rfl
  | cons d t ih =>
    intro a
    simp only [List.foldl_cons]
    rw [charDigitVal_digitChar (h d (List.mem_cons_self d t))]
    exact ih (fun x hx => h x (List.mem_cons_of_mem d hx)) _

theorem natOfDigitChars_map {ds : List ℕ} (h : ∀ d ∈ ds, d < 10) :
    natOfDigitChars (ds.map digitChar) = natOfDigitVals ds := by
  simp only [natOfDigitChars, natOfDigitVals, List.foldl_map]
  exact foldl_digit_map ds h 0

theorem natOfDigitVals_reverse (l : List ℕ) :
    natOfDigitVals l.reverse = Nat.ofDigits 10 l := by
  induction l with
  | nil => rfl
  | cons x t ih =>
    have : natOfDigitVals (t.reverse ++ [x]) =
        natOfDigitVals t.reverse * 10 + x := by
      simp only [natOfDigitVals, List.foldl_append, List.foldl_cons,
        List.foldl_nil]
    simp only [List.reverse_cons, this, ih, Nat.ofDigits_cons]
    ring

theorem natOfDigitChars_natDigitChars (n : ℕ) :
    natOfDigitChars (natDigitChars n) = n := by
  rw [natDigitChars,
    natOfDigitChars_map (fun d hd =>
      Nat.digits_lt_base (by norm_num) (List.mem_reverse.mp hd)),
    natOfDigitVals_reverse, Nat.ofDigits_digits]

theorem natOfDigitChars_replicate_zero (z : ℕ) (l : List Char) :
    natOfDigitChars (List.replicate z '0' ++ l) = natOfDigitChars l := by
  induction z with
  | zero => rfl
  | succ z ih =>
    simpa only [List.replicate_succ, List.cons_append, natOfDigitChars,
      List.foldl_cons] using ih

theorem natOfDigitChars_padDigits (n k : ℕ) :
    natOfDigitChars (padDigits n k) = n := by
  rw [padDigits, natOfDigitChars_replicate_zero, natOfDigitChars_natDigitChars]

theorem takeWhile_dropWhile_append {p : Char → Bool} {l1 l2 : List Char}
    (h1 : ∀ c ∈ l1, p c = true)
    (h2 : ∀ c, l2.head? = some c → p c = false) :
    (l1 ++ l2).takeWhile p = l1 ∧ (l1 ++ l2).dropWhile p = l2 := by
  induction l1 with
  | nil =>
    simp only [List.nil_append]
    cases l2 with
    | nil => exact ⟨rfl, rfl⟩
    | cons c r =>
      have := h2 c rfl
      constructor
      · simp [List.takeWhile_cons, this]
      · simp [List.dropWhile_cons, this]
  | cons c t ih =>
    have hc := h1 c (List.mem_cons_self c t)
    obtain ⟨ht, hd⟩ := ih (fun x hx => h1 x (List.mem_cons_of_mem c hx))
    constructor
    · simp [List.takeWhile_cons, hc, ht]
    · simp [List.dropWhile_cons, hc, hd]

theorem skipWs_cons_ws {c : Char} (h : isWsChar c = true) (l : List Char) :
    skipWs (c :: l) = skipWs l := by
  simp [skipWs, h]

theorem skipWs_cons_not {c : Char} (h : isWsChar c = false) (l : List Char) :
    skipWs (c :: l) = c :: l := by
  simp [skipWs, h]

theorem skipWs_replicate_space (n : ℕ) (l : List Char) :
    skipWs (List.replicate n ' ' ++ l) = skipWs l := by
  induction n with
  | zero => rfl
  | succ n ih =>
    rw [List.replicate_succ, List.cons_append, skipWs_cons_ws (by decide), ih]

theorem skipWs_indent (d : ℕ) (l : List Char) :
    skipWs (indentChars d ++ l) = skipWs l :=
  skipWs_replicate_space (2 * d) l

theorem numChars_cons (m : ℤ) (e : ℕ) :
    ∃ c r, numChars m e = c :: r ∧
      (c = '-' ∨ ∃ d, d < 10 ∧ c = digitChar d) := by
  have hlen : 1 ≤ (padDigits m.natAbs (e + 1)).length := by
    rw [padDigits_length]
    omega
  obtain ⟨c0, t0, hpad⟩ : ∃ c0 t0, padDigits m.natAbs (e + 1) = c0 :: t0 := by
    cases hp : padDigits m.natAbs (e + 1) with
    | nil => rw [hp] at hlen; simp at hlen
    | cons a b => exact ⟨a, b, rfl⟩
  have hc0 : ∃ d, d < 10 ∧ c0 = digitChar d :=
    mem_padDigits (by rw [hpad]; exact List.mem_cons_self c0 t0)
  by_cases hm : m < 0
  · refine ⟨'-', ?_, ?_, Or.inl rfl⟩
    · exact if e = 0 then padDigits m.natAbs (e + 1) else
        (padDigits m.natAbs (e + 1)).take ((padDigits m.natAbs (e + 1)).length - e) ++
          '.' :: (padDigits m.natAbs (e + 1)).drop ((padDigits m.natAbs (e + 1)).length - e)
    · by_cases he : e = 0 <;>
        simp [numChars, hm, he]
  · by_cases he : e = 0
    · subst he
      exact ⟨c0, t0, by simp [numChars, hm, hpad], Or.inr hc0⟩
    · have htake : 1 ≤ (padDigits m.natAbs (e + 1)).length - e := by
        rw [padDigits_length]
        omega
      obtain ⟨c1, t1, hsplit⟩ : ∃ c1 t1,
          (padDigits m.natAbs (e + 1)).take
            ((padDigits m.natAbs (e + 1)).length - e) = c1 :: t1 := by
        cases hp : (padDigits m.natAbs (e + 1)).take
            ((padDigits m.natAbs (e + 1)).length - e) with
        | nil =>
          have := congrArg List.length hp
          simp only [List.length_take, List.length_nil] at this
          omega
        | cons a b => exact ⟨a, b, rfl⟩
      have hc1 : ∃ d, d < 10 ∧ c1 = digitChar d :=
        mem_padDigits (List.take_subset _ _
          (by rw [hsplit]; exact List.mem_cons_self c1 t1))
      refine ⟨c1, ?_, ?_, Or.inr hc1⟩
      · exact t1 ++ '.' :: (padDigits m.natAbs (e + 1)).drop
          ((padDigits m.natAbs (e + 1)).length - e)
      · simp [numChars, hm, he, hsplit]

theorem numSafeB_facts {rest : List Char} (h : numSafeB rest = true) :
    ∀ c, rest.head? = some c → isDigitChar c = false ∧ c ≠ '.' := by
  cases rest with
  | nil => intro c hc; exact absurd hc (by simp)
  | cons c0 r =>
    intro c hc
    simp only [List.head?_cons, Option.some.injEq] at hc
    subst hc
    simp only [numSafeB, Bool.not_eq_eq_eq_not, Bool.not_true,
      Bool.or_eq_false_iff] at h
    obtain ⟨h1, h2⟩ := h
    exact ⟨h1, by simpa using h2⟩

theorem pad_digit_chars (n k : ℕ) :
    ∀ c ∈ padDigits n k, isDigitChar c = true := by
  intro c hc
  obtain ⟨d, hd, rfl⟩ := mem_padDigits hc
  exact (digitChar_facts hd).2.1

theorem parseNumber_numChars (m : ℤ) (e : ℕ) (rest : List Char)
    (hrest : numSafeB rest = true) :
    parseNumber (numChars m e ++ rest) = some (Json.num m e, rest) := by
  have hr := numSafeB_facts hrest
  have hrd : ∀ c, rest.head? = some c → isDigitChar c = false :=
    fun c hc => (hr c hc).1
  have hlen1 : e + 1 ≤ (padDigits m.natAbs (e + 1)).length := by
    rw [padDigits_length]; omega
  have hdigs := pad_digit_chars m.natAbs (e + 1)
  by_cases he : e = 0
  · subst he
    obtain ⟨c0, t0, hpad⟩ : ∃ c0 t0, padDigits m.natAbs 1 = c0 :: t0 := by
      cases hp : padDigits m.natAbs 1 with
      | nil => rw [hp] at hlen1; simp at hlen1
      | cons a b => exact ⟨a, b, rfl⟩
    obtain ⟨d0, hd0, hc0⟩ : ∃ d, d < 10 ∧ c0 = digitChar d :=
      mem_padDigits (by rw [hpad]; exact List.mem_cons_self c0 t0)
    obtain ⟨hTake, hDrop⟩ :=
      takeWhile_dropWhile_append hdigs hrd
    have hvne : ¬((padDigits m.natAbs 1 ++ rest).head? = some '-') := by
      rw [hpad, List.cons_append, List.head?_cons]
      simp only [Option.some.injEq]
      rw [hc0]
      exact (digitChar_facts hd0).2.2.2.2.2.2.2.2.2.2.1
    by_cases hm : m < 0
    · have hval : -((natOfDigitChars (padDigits m.natAbs 1) : ℕ) : ℤ) = m := by
        rw [natOfDigitChars_padDigits]; omega
      have hnum : numChars m 0 ++ rest = '-' :: (padDigits m.natAbs 1 ++ rest) := by
        simp [numChars, hm]
      rw [hnum]
      simp only [parseNumber, List.head?_cons, Option.some.injEq, if_true,
        List.tail_cons, hTake, hDrop]
      rw [hpad]
      simp only [List.isEmpty_cons, Bool.false_eq_true, if_false]
      split
      · simp [numSafeB] at hrest
      · rw [← hpad, hval]
    · have hval : ((natOfDigitChars (padDigits m.natAbs 1) : ℕ) : ℤ) = m := by
        rw [natOfDigitChars_padDigits]; omega
      have hnum : numChars m 0 ++ rest = padDigits m.natAbs 1 ++ rest := by
        simp [numChars, hm]
      rw [hnum]
      simp only [parseNumber, hvne, if_false, hTake, hDrop]
      rw [hpad]
      simp only [List.isEmpty_cons, Bool.false_eq_true, if_false]
      split
      · simp [numSafeB] at hrest
      · rw [← hpad, hval]
  · -- fractional formatting: digits, a point, then e digits
    have hepos : 0 < e := Nat.pos_of_ne_zero he
    have htklen : ((padDigits m.natAbs (e + 1)).take
        ((padDigits m.natAbs (e + 1)).length - e)).length =
        (padDigits m.natAbs (e + 1)).length - e := by
      rw [List.length_take]
      omega
    have hdplen : ((padDigits m.natAbs (e + 1)).drop
        ((padDigits m.natAbs (e + 1)).length - e)).length = e := by
      rw [List.length_drop]
      omega
    obtain ⟨c1, t1, htk⟩ : ∃ c1 t1, (padDigits m.natAbs (e + 1)).take
        ((padDigits m.natAbs (e + 1)).length - e) = c1 :: t1 := by
      cases hp : (padDigits m.natAbs (e + 1)).take
          ((padDigits m.natAbs (e + 1)).length - e) with
      | nil =>
        have := congrArg List.length hp
        rw [htklen] at this
        simp at this
        omega
      | cons a b => exact ⟨a, b, rfl⟩
    obtain ⟨d1, hd1, hc1⟩ : ∃ d, d < 10 ∧ c1 = digitChar d :=
      mem_padDigits (List.take_subset _ _
        (by rw [htk]; exact List.mem_cons_self c1 t1))
    have htkdigs : ∀ c ∈ (padDigits m.natAbs (e + 1)).take
        ((padDigits m.natAbs (e + 1)).length - e), isDigitChar c = true :=
      fun c hc => hdigs c (List.take_subset _ _ hc)
    have hdpdigs : ∀ c ∈ (padDigits m.natAbs (e + 1)).drop
        ((padDigits m.natAbs (e + 1)).length - e), isDigitChar c = true :=
      fun c hc => hdigs c (List.drop_subset _ _ hc)
    obtain ⟨hTake2, hDrop2⟩ :=
      takeWhile_dropWhile_append hdpdigs hrd
    have hdot : ∀ c : Char,
        (('.' :: ((padDigits m.natAbs (e + 1)).drop
          ((padDigits m.natAbs (e + 1)).length - e) ++ rest)).head? = some c) →
        isDigitChar c = false := by
      intro c hc
      simp only [List.head?_cons, Option.some.injEq] at hc
      subst hc
      decide
    obtain ⟨hTake1, hDrop1⟩ := takeWhile_dropWhile_append htkdigs hdot
    have hvne : ¬(((padDigits m.natAbs (e + 1)).take
        ((padDigits m.natAbs (e + 1)).length - e) ++
          ('.' :: ((padDigits m.natAbs (e + 1)).drop
            ((padDigits m.natAbs (e + 1)).length - e) ++ rest))).head? =
        some '-') := by
      rw [htk, List.cons_append, List.head?_cons]
      simp only [Option.some.injEq]
      rw [hc1]
      exact (digitChar_facts hd1).2.2.2.2.2.2.2.2.2.2.1
    have hdpne : ((padDigits m.natAbs (e + 1)).drop
        ((padDigits m.natAbs (e + 1)).length - e)).isEmpty = false := by
      cases hdp : (padDigits m.natAbs (e + 1)).drop
          ((padDigits m.natAbs (e + 1)).length - e) with
      | nil =>
        have := congrArg List.length hdp
        rw [hdplen] at this
        simp at this
        omega
      | cons a b => rfl
    have hcat : (padDigits m.natAbs (e + 1)).take
          ((padDigits m.natAbs (e + 1)).length - e) ++
        (padDigits m.natAbs (e + 1)).drop
          ((padDigits m.natAbs (e + 1)).length - e) =
        padDigits m.natAbs (e + 1) := List.take_append_drop _ _
    by_cases hm : m < 0
    · have hval : -((natOfDigitChars ((padDigits m.natAbs (e + 1)).take
          ((padDigits m.natAbs (e + 1)).length - e) ++
        (padDigits m.natAbs (e + 1)).drop
          ((padDigits m.natAbs (e + 1)).length - e)) : ℕ) : ℤ) = m := by
        rw [hcat, natOfDigitChars_padDigits]; omega
      have hnum : numChars m e ++ rest =
          '-' :: ((padDigits m.natAbs (e + 1)).take
            ((padDigits m.natAbs (e + 1)).length - e) ++
              ('.' :: ((padDigits m.natAbs (e + 1)).drop
                ((padDigits m.natAbs (e + 1)).length - e) ++ rest))) := by
        simp [numChars, hm, he, List.append_assoc]
      rw [hnum]
      simp only [parseNumber, List.head?_cons, Option.some.injEq, if_true,
        List.tail_cons, hTake1, hDrop1]
      rw [htk]
      simp only [List.isEmpty_cons, Bool.false_eq_true, if_false]
      rw [← htk]
      simp only [hTake2, hDrop2, hdpne, Bool.false_eq_true, if_false, hval, hdplen]
    · have hval : ((natOfDigitChars ((padDigits m.natAbs (e + 1)).take
          ((padDigits m.natAbs (e + 1)).length - e) ++
        (padDigits m.natAbs (e + 1)).drop
          ((padDigits m.natAbs (e + 1)).length - e)) : ℕ) : ℤ) = m := by
        rw [hcat, natOfDigitChars_padDigits]; omega
      have hnum : numChars m e ++ rest =
          (padDigits m.natAbs (e + 1)).take
            ((padDigits m.natAbs (e + 1)).length - e) ++
              ('.' :: ((padDigits m.natAbs (e + 1)).drop
                ((padDigits m.natAbs (e + 1)).length - e) ++ rest)) := by
        simp [numChars, hm, he, List.append_assoc]
      rw [hnum]
      simp only [parseNumber, hvne, if_false, hTake1, hDrop1]
      rw [htk]
      simp only [List.isEmpty_cons, Bool.false_eq_true, if_false]
      rw [← htk]
      simp only [hTake2, hDrop2, hdpne, Bool.false_eq_true, if_false, hval, hdplen]

theorem parseStrChars_escChars (cs rest : List Char) :
    parseStrChars (escChars cs ++ ('"' :: rest)) = some (cs, rest) := by
  induction cs with
  | nil =>
    show parseStrChars ('"' :: rest) = some ([], rest)
    unfold parseStrChars
    simp
  | cons c t ih =>
    show parseStrChars ((escChar c ++ escChars t) ++ ('"' :: rest)) = _
    rw [List.append_assoc]
    by_cases h1 : c = '"'
    · subst h1
      rw [show escChar '"' = ['\\', '"'] from rfl]
      show parseStrChars ('\\' :: '"' :: (escChars t ++ ('"' :: rest))) = _
      unfold parseStrChars
      simp [unescape, ih]
    · by_cases h2 : c = '\\'
      · subst h2
        rw [show escChar '\\' = ['\\', '\\'] from rfl]
        show parseStrChars ('\\' :: '\\' :: (escChars t ++ ('"' :: rest))) = _
        unfold parseStrChars
        simp [unescape, ih]
      · by_cases h3 : c = '\n'
        · subst h3
          rw [show escChar '\n' = ['\\', 'n'] from rfl]
          show parseStrChars ('\\' :: 'n' :: (escChars t ++ ('"' :: rest))) = _
          unfold parseStrChars
          simp [unescape, ih]
        · by_cases h4 : c = '\r'
          · subst h4
            rw [show escChar '\r' = ['\\', 'r'] from rfl]
            show parseStrChars ('\\' :: 'r' :: (escChars t ++ ('"' :: rest))) = _
            unfold parseStrChars
            simp [unescape, ih]
          · by_cases h5 : c = '\t'
            · subst h5
              rw [show escChar '\t' = ['\\', 't'] from rfl]
              show parseStrChars ('\\' :: 't' :: (escChars t ++ ('"' :: rest))) = _
              unfold parseStrChars
              simp [unescape, ih]
            · by_cases h6 : c = '\x08'
              · subst h6
                rw [show escChar '\x08' = ['\\', 'b'] from rfl]
                show parseStrChars ('\\' :: 'b' :: (escChars t ++ ('"' :: rest))) = _
                unfold parseStrChars
                simp [unescape, ih]
              · by_cases h7 : c = '\x0c'
                · subst h7
                  rw [show escChar '\x0c' = ['\\', 'f'] from rfl]
                  show parseStrChars ('\\' :: 'f' :: (escChars t ++ ('"' :: rest))) = _
                  unfold parseStrChars
                  simp [unescape, ih]
                · by_cases h8 : c.toNat < 32
                  · rw [show escChar c =
                      ['\\', 'u', '0', '0', hexChar (c.toNat / 16),
                        hexChar (c.toNat % 16)] from by
                      simp [escChar, h1, h2, h3, h4, h5, h6, h7, h8]]
                    show parseStrChars ('\\' :: 'u' :: '0' :: '0' ::
                      hexChar (c.toNat / 16) :: hexChar (c.toNat % 16) ::
                        (escChars t ++ ('"' :: rest))) = _
                    unfold parseStrChars
                    simp [ih, hexVal_hexChar (show c.toNat / 16 < 16 from by omega),
                      hexVal_hexChar (show c.toNat % 16 < 16 from by omega)]
                    rw [show ((hexVal '0' * 16 + hexVal '0') * 16 + c.toNat / 16) * 16 +
                        c.toNat % 16 = c.toNat from by
                      rw [show hexVal '0' = 0 from rfl]
                      omega]
                    rw [Char.ofNat_toNat]
                  · rw [show escChar c = [c] from by
                      simp [escChar, h1, h2, h3, h4, h5, h6, h7, h8]]
                    show parseStrChars (c :: (escChars t ++ ('"' :: rest))) = _
                    unfold parseStrChars
                    rw [if_neg h1, if_neg h2, ih]

theorem parseValue_skipWs_eq (f : ℕ) {i1 i2 : List Char}
    (h : skipWs i1 = skipWs i2) : parseValue f i1 = parseValue f i2 := by
  cases f with
  | zero => rfl
  | succ f =>
    show parseValue (f + 1) i1 = parseValue (f + 1) i2
    unfold parseValue
    rw [h]

theorem parseArrItems_skipWs_eq (f : ℕ) {i1 i2 : List Char}
    (h : skipWs i1 = skipWs i2) : parseArrItems f i1 = parseArrItems f i2 := by
  cases f with
  | zero => rfl
  | succ f =>
    show parseArrItems (f + 1) i1 = parseArrItems (f + 1) i2
    unfold parseArrItems
    rw [parseValue_skipWs_eq f h]

theorem parseObjItems_skipWs_eq (f : ℕ) {i1 i2 : List Char}
    (h : skipWs i1 = skipWs i2) : parseObjItems f i1 = parseObjItems f i2 := by
  cases f with
  | zero => rfl
  | succ f =>
    show parseObjItems (f + 1) i1 = parseObjItems (f + 1) i2
    unfold parseObjItems
    rw [h]

theorem stringifyVal_cons (j : Json) (d : ℕ) :
    ∃ c r, stringifyVal j d = c :: r ∧ isWsChar c = false ∧
      c ≠ ']' ∧ c ≠ '\x7d' ∧ c ≠ ',' := by
  cases j with
  | null => exact ⟨'n', _, rfl, by decide, by decide, by decide, by decide⟩
  | bool b =>
    cases b with
    | true => exact ⟨'t', _, rfl, by decide, by decide, by decide, by decide⟩
    | false => exact ⟨'f', _, rfl, by decide, by decide, by decide, by decide⟩
  | num m e =>
    obtain ⟨c, r, hcr, hc⟩ := numChars_cons m e
    refine ⟨c, r, hcr, ?_, ?_, ?_, ?_⟩ <;>
      rcases hc with rfl | ⟨dd, hdd, rfl⟩
    · decide
    · exact (digitChar_facts hdd).1
    · decide
    · exact (digitChar_facts hdd).2.2.1
    · decide
    · exact (digitChar_facts hdd).2.2.2.1
    · decide
    · have := (digitChar_facts hdd).2.1
      intro hcon
      rw [hcon] at this
      exact absurd this (by decide)
  | str s => exact ⟨'"', _, rfl, by decide, by decide, by decide, by decide⟩
  | arr a =>
    cases a with
    | nil => exact ⟨'[', _, rfl, by decide, by decide, by decide, by decide⟩
    | cons h t => exact ⟨'[', _, rfl, by decide, by decide, by decide, by decide⟩
  | obj o =>
    cases o with
    | nil => exact ⟨'\x7b', _, rfl, by decide, by decide, by decide, by decide⟩
    | cons k v t => exact ⟨'\x7b', _, rfl, by decide, by decide, by decide, by decide⟩

theorem numSafeB_stringifyArrRest (t : JsonArr) (d : ℕ) {tail : List Char}
    (h : numSafeB tail = true) :
    numSafeB (stringifyArrRest t d ++ tail) = true := by
  cases t with
  | nil => simpa [stringifyArrRest] using h
  | cons h2 t2 => simp [stringifyArrRest, numSafeB, isDigitChar]

theorem numSafeB_stringifyObjRest (o : JsonObj) (d : ℕ) {tail : List Char}
    (h : numSafeB tail = true) :
    numSafeB (stringifyObjRest o d ++ tail) = true := by
  cases o with
  | nil => simpa [stringifyObjRest] using h
  | cons k v t => simp [stringifyObjRest, numSafeB, isDigitChar]

theorem jsize_pos (j : Json) : 1 ≤ jsize j := by
  cases j <;> simp [jsize]

theorem jsizeArr_pos (a : JsonArr) : 1 ≤ jsizeArr a := by
  cases a <;> simp [jsizeArr]

theorem jsizeObj_pos (o : JsonObj) : 1 ≤ jsizeObj o := by
  cases o <;> simp [jsizeObj]

theorem parse_stringify (f : ℕ) :
    (∀ (j : Json) (d : ℕ) (rest : List Char), jsize j ≤ f → numSafeB rest = true →
      parseValue f (stringifyVal j d ++ rest) = some (j, rest)) ∧
    (∀ (h : Json) (t : JsonArr) (d : ℕ) (tail rest : List Char),
      jsizeArr (JsonArr.cons h t) ≤ f → skipWs tail = ']' :: rest →
      numSafeB tail = true →
      parseArrItems f (stringifyVal h d ++ (stringifyArrRest t d ++ tail)) =
        some (JsonArr.cons h t, rest)) ∧
    (∀ (k : String) (v : Json) (t : JsonObj) (d : ℕ) (tail rest : List Char),
      jsizeObj (JsonObj.cons k v t) ≤ f → skipWs tail = '\x7d' :: rest →
      numSafeB tail = true →
      parseObjItems f ('"' :: (escChars k.data ++ ('"' :: ':' :: ' ' ::
        (stringifyVal v d ++ (stringifyObjRest t d ++ tail))))) =
        some (JsonObj.cons k v t, rest)) := by
  induction f with
  | zero =>
    refine ⟨fun j d rest hsz _ => ?_, fun h t d tail rest hsz _ _ => ?_,
      fun k v t d tail rest hsz _ _ => ?_⟩
    · exact absurd hsz (by have := jsize_pos j; omega)
    · exact absurd hsz (by
        have := jsize_pos h
        have := jsizeArr_pos t
        simp only [jsizeArr]
        omega)
    · exact absurd hsz (by
        have := jsize_pos v
        have := jsizeObj_pos t
        simp only [jsizeObj]
        omega)
  | succ f ih =>
    obtain ⟨ih1, ih2, ih3⟩ := ih
    refine ⟨?_, ?_, ?_⟩
    · -- parseValue on a printed value
      intro j d rest hsz hsafe
      cases j with
      | null =>
        show parseValue (f + 1) ('n' :: 'u' :: 'l' :: 'l' :: rest) =
          some (Json.null, rest)
        unfold parseValue
        rw [skipWs_cons_not (by decide)]
        simp
      | bool b =>
        cases b with
        | true =>
          show parseValue (f + 1) ('t' :: 'r' :: 'u' :: 'e' :: rest) =
            some (Json.bool true, rest)
          unfold parseValue
          rw [skipWs_cons_not (by decide)]
          simp
        | false =>
          show parseValue (f + 1) ('f' :: 'a' :: 'l' :: 's' :: 'e' :: rest) =
            some (Json.bool false, rest)
          unfold parseValue
          rw [skipWs_cons_not (by decide)]
          simp
      | num m e =>
        obtain ⟨c, r, hcr, hc⟩ := numChars_cons m e
        have hfacts : isWsChar c = false ∧ c ≠ '"' ∧ c ≠ '[' ∧ c ≠ '\x7b' ∧
            c ≠ 'n' ∧ c ≠ 't' ∧ c ≠ 'f' := by
          rcases hc with rfl | ⟨dd, hdd, rfl⟩
          · exact ⟨by decide, by decide, by decide, by decide, by decide,
              by decide, by decide⟩
          · have hf := digitChar_facts hdd
            exact ⟨hf.1, hf.2.2.2.2.1, hf.2.2.2.2.2.1, hf.2.2.2.2.2.2.1,
              hf.2.2.2.2.2.2.2.1, hf.2.2.2.2.2.2.2.2.1,
              hf.2.2.2.2.2.2.2.2.2.1⟩
        have hinput : stringifyVal (Json.num m e) d ++ rest = c :: (r ++ rest) := by
          rw [show stringifyVal (Json.num m e) d = numChars m e from rfl, hcr,
            List.cons_append]
        rw [hinput]
        unfold parseValue
        rw [skipWs_cons_not hfacts.1]
        simp only [hfacts.2.1, hfacts.2.2.1, hfacts.2.2.2.1, hfacts.2.2.2.2.1,
          hfacts.2.2.2.2.2.1, hfacts.2.2.2.2.2.2, ite_false, if_false]
        rw [← List.cons_append, ← hcr]
        exact parseNumber_numChars m e rest hsafe
      | str s =>
        have hinput : stringifyVal (Json.str s) d ++ rest =
            '"' :: (escChars s.data ++ ('"' :: rest)) := by
          show ('"' :: (escChars s.data ++ ['"'])) ++ rest = _
          simp
        rw [hinput]
        unfold parseValue
        rw [skipWs_cons_not (by decide)]
        simp [parseStrChars_escChars]
      | arr a =>
        cases a with
        | nil =>
          show parseValue (f + 1) ('[' :: ']' :: rest) = some (Json.arr JsonArr.nil, rest)
          unfold parseValue
          rw [skipWs_cons_not (by decide)]
          simp [skipWs_cons_not (show isWsChar ']' = false from by decide)]
        | cons h t =>
          obtain ⟨c0, r0, hitem, hws0, hbr0, hbc0, hcm0⟩ := stringifyVal_cons h (d + 1)
          have hinput : stringifyVal (Json.arr (JsonArr.cons h t)) d ++ rest =
              '[' :: '\n' :: (indentChars (d + 1) ++ (stringifyVal h (d + 1) ++
                (stringifyArrRest t (d + 1) ++
                  ('\n' :: (indentChars d ++ (']' :: rest)))))) := by
            show ('[' :: '\n' :: (indentChars (d + 1) ++ (stringifyVal h (d + 1) ++
              (stringifyArrRest t (d + 1) ++
                ('\n' :: (indentChars d ++ [']'])))))) ++ rest = _
            simp
          rw [hinput]
          unfold parseValue
          rw [skipWs_cons_not (by decide)]
          have hskipr : skipWs ('\n' :: (indentChars (d + 1) ++ (stringifyVal h (d + 1) ++
              (stringifyArrRest t (d + 1) ++
                ('\n' :: (indentChars d ++ (']' :: rest))))))) =
              stringifyVal h (d + 1) ++ (stringifyArrRest t (d + 1) ++
                ('\n' :: (indentChars d ++ (']' :: rest)))) := by
            rw [skipWs_cons_ws (by decide), skipWs_indent, hitem,
              List.cons_append, skipWs_cons_not hws0, ← List.cons_append,
              ← hitem]
          have hne : ¬((stringifyVal h (d + 1) ++ (stringifyArrRest t (d + 1) ++
              ('\n' :: (indentChars d ++ (']' :: rest))))).head? = some ']') := by
            rw [hitem, List.cons_append, List.head?_cons]
            simp only [Option.some.injEq]
            exact hbr0
          have htail : skipWs ('\n' :: (indentChars d ++ (']' :: rest))) =
              ']' :: rest := by
            rw [skipWs_cons_ws (by decide), skipWs_indent,
              skipWs_cons_not (by decide)]
          have hsz2 : jsizeArr (JsonArr.cons h t) ≤ f := by
            simp only [jsize, jsizeArr] at hsz ⊢
            omega
          have harr := ih2 h t (d + 1) ('\n' :: (indentChars d ++ (']' :: rest)))
            rest hsz2 htail (by simp [numSafeB, isDigitChar])
          simp [hskipr, hbr0, harr]
          refine ⟨?_, ?_⟩
          · rw [hitem, List.head?_cons]
            simpa using hbr0
          · intro hcon
            rw [hitem] at hcon
            exact absurd hcon (by simp)
      | obj o =>
        cases o with
        | nil =>
          show parseValue (f + 1) ('{' :: '}' :: rest) =
            some (Json.obj JsonObj.nil, rest)
          unfold parseValue
          rw [skipWs_cons_not (by decide)]
          simp [skipWs_cons_not (show isWsChar '}' = false from by decide)]
        | cons k v t =>
          have hinput : stringifyVal (Json.obj (JsonObj.cons k v t)) d ++ rest =
              '{' :: '\n' :: (indentChars (d + 1) ++ ('"' :: (escChars k.data ++
                ('"' :: ':' :: ' ' :: (stringifyVal v (d + 1) ++
                  (stringifyObjRest t (d + 1) ++
                    ('\n' :: (indentChars d ++ ('}' :: rest))))))))) := by
            show ('{' :: '\n' :: (indentChars (d + 1) ++ ('"' :: (escChars k.data ++
              ('"' :: ':' :: ' ' :: (stringifyVal v (d + 1) ++
                (stringifyObjRest t (d + 1) ++
                  ('\n' :: (indentChars d ++ ['}'])))))))) ) ++ rest = _
            simp
          rw [hinput]
          unfold parseValue
          rw [skipWs_cons_not (by decide)]
          have hskipr : skipWs ('\n' :: (indentChars (d + 1) ++ ('"' :: (escChars k.data ++
              ('"' :: ':' :: ' ' :: (stringifyVal v (d + 1) ++
                (stringifyObjRest t (d + 1) ++
                  ('\n' :: (indentChars d ++ ('}' :: rest)))))))))) =
              '"' :: (escChars k.data ++
                ('"' :: ':' :: ' ' :: (stringifyVal v (d + 1) ++
                  (stringifyObjRest t (d + 1) ++
                    ('\n' :: (indentChars d ++ ('}' :: rest))))))) := by
            rw [skipWs_cons_ws (by decide), skipWs_indent,
              skipWs_cons_not (by decide)]
          have hne : ¬(('"' :: (escChars k.data ++
              ('"' :: ':' :: ' ' :: (stringifyVal v (d + 1) ++
                (stringifyObjRest t (d + 1) ++
                  ('\n' :: (indentChars d ++ ('}' :: rest)))))))).head? =
              some '}') := by
            rw [List.head?_cons]
            simp only [Option.some.injEq]
            decide
          have htail : skipWs ('\n' :: (indentChars d ++ ('}' :: rest))) =
              '}' :: rest := by
            rw [skipWs_cons_ws (by decide), skipWs_indent,
              skipWs_cons_not (by decide)]
          have hsz2 : jsizeObj (JsonObj.cons k v t) ≤ f := by
            simp only [jsize, jsizeObj] at hsz ⊢
            omega
          have hobj := ih3 k v t (d + 1) ('\n' :: (indentChars d ++ ('}' :: rest)))
            rest hsz2 htail (by simp [numSafeB, isDigitChar])
          simp [hskipr, hobj]
    · -- parseArrItems over a printed element and its siblings
      intro h t d tail rest hsz hskip hsafe
      have hszh : jsize h ≤ f := by
        simp only [jsizeArr] at hsz
        have := jsizeArr_pos t
        omega
      have hv := ih1 h d (stringifyArrRest t d ++ tail) hszh
        (numSafeB_stringifyArrRest t d hsafe)
      show parseArrItems (f + 1)
        (stringifyVal h d ++ (stringifyArrRest t d ++ tail)) = _
      unfold parseArrItems
      rw [hv]
      cases t with
      | nil =>
        simp [stringifyArrRest, hskip]
      | cons h2 t2 =>
        have hre : stringifyArrRest (JsonArr.cons h2 t2) d ++ tail =
            ',' :: '\n' :: (indentChars d ++
              (stringifyVal h2 d ++ (stringifyArrRest t2 d ++ tail))) := by
          show (',' :: '\n' :: (indentChars d ++
            (stringifyVal h2 d ++ stringifyArrRest t2 d))) ++ tail = _
          simp
        have hnext : parseArrItems f ('\n' :: (indentChars d ++
            (stringifyVal h2 d ++ (stringifyArrRest t2 d ++ tail)))) =
            some (JsonArr.cons h2 t2, rest) := by
          rw [parseArrItems_skipWs_eq f
            (show skipWs ('\n' :: (indentChars d ++
                (stringifyVal h2 d ++ (stringifyArrRest t2 d ++ tail)))) =
              skipWs (stringifyVal h2 d ++ (stringifyArrRest t2 d ++ tail)) from by
              rw [skipWs_cons_ws (by decide), skipWs_indent])]
          exact ih2 h2 t2 d tail rest
            (by simp only [jsizeArr] at hsz ⊢; omega) hskip hsafe
        rw [hre]
        simp [skipWs_cons_not (show isWsChar ',' = false from by decide), hnext]
    · -- parseObjItems over a printed member and its siblings
      intro k v t d tail rest hsz hskip hsafe
      have hszv : jsize v ≤ f := by
        simp only [jsizeObj] at hsz
        have := jsizeObj_pos t
        omega
      have hval : parseValue f
          (' ' :: (stringifyVal v d ++ (stringifyObjRest t d ++ tail))) =
          some (v, stringifyObjRest t d ++ tail) := by
        rw [parseValue_skipWs_eq f
          (show skipWs (' ' :: (stringifyVal v d ++ (stringifyObjRest t d ++ tail))) =
            skipWs (stringifyVal v d ++ (stringifyObjRest t d ++ tail)) from by
            rw [skipWs_cons_ws (by decide)])]
        exact ih1 v d _ hszv (numSafeB_stringifyObjRest t d hsafe)
      unfold parseObjItems
      rw [skipWs_cons_not (by decide)]
      simp only [parseStrChars_escChars]
      cases t with
      | nil =>
        have hval2 : parseValue f (' ' :: (stringifyVal v d ++ tail)) =
            some (v, tail) := hval
        simp [stringifyObjRest, hval2, hskip,
          skipWs_cons_not (show isWsChar ':' = false from by decide)]
      | cons k2 v2 t2 =>
        have hre : stringifyObjRest (JsonObj.cons k2 v2 t2) d ++ tail =
            ',' :: '\n' :: (indentChars d ++ ('"' :: (escChars k2.data ++
              ('"' :: ':' :: ' ' :: (stringifyVal v2 d ++
                (stringifyObjRest t2 d ++ tail)))))) := by
          show (',' :: '\n' :: (indentChars d ++ ('"' :: (escChars k2.data ++
            ('"' :: ':' :: ' ' :: (stringifyVal v2 d ++
              stringifyObjRest t2 d)))))) ++ tail = _
          simp
        have hnext : parseObjItems f ('\n' :: (indentChars d ++
            ('"' :: (escChars k2.data ++ ('"' :: ':' :: ' ' ::
              (stringifyVal v2 d ++ (stringifyObjRest t2 d ++ tail))))))) =
            some (JsonObj.cons k2 v2 t2, rest) := by
          rw [parseObjItems_skipWs_eq f
            (show skipWs ('\n' :: (indentChars d ++
                ('"' :: (escChars k2.data ++ ('"' :: ':' :: ' ' ::
                  (stringifyVal v2 d ++ (stringifyObjRest t2 d ++ tail))))))) =
              skipWs ('"' :: (escChars k2.data ++ ('"' :: ':' :: ' ' ::
                (stringifyVal v2 d ++ (stringifyObjRest t2 d ++ tail))))) from by
              rw [skipWs_cons_ws (by decide), skipWs_indent])]
          exact ih3 k2 v2 t2 d tail rest
            (by simp only [jsizeObj] at hsz ⊢; omega) hskip hsafe
        have hval3 := hval
        simp only [stringifyObjRest, List.cons_append, List.append_assoc] at hval3
        have hnext2 := hnext
        simp only [List.cons_append, List.append_assoc] at hnext2
        simp [stringifyObjRest,
          skipWs_cons_not (show isWsChar ',' = false from by decide),
          skipWs_cons_not (show isWsChar ':' = false from by decide),
          hval3, hnext2, hskip]

theorem stringify_length (n : ℕ) :
    (∀ j, jsize j ≤ n → ∀ d, jsize j ≤ (stringifyVal j d).length) ∧
    (∀ a, jsizeArr a ≤ n → ∀ d, jsizeArr a ≤ (stringifyArrRest a d).length + 1) ∧
    (∀ o, jsizeObj o ≤ n → ∀ d, jsizeObj o ≤ (stringifyObjRest o d).length + 1) := by
  induction n with
  | zero =>
    refine ⟨fun j hsz d => absurd hsz ?_, fun a hsz d => absurd hsz ?_,
      fun o hsz d => absurd hsz ?_⟩
    · have := jsize_pos j; omega
    · have := jsizeArr_pos a; omega
    · have := jsizeObj_pos o; omega
  | succ n ih =>
    obtain ⟨ih1, ih2, ih3⟩ := ih
    refine ⟨?_, ?_, ?_⟩
    · intro j hsz d
      cases j with
      | null => simp [jsize, stringifyVal]
      | bool b => cases b <;> simp [jsize, stringifyVal]
      | num m e =>
        obtain ⟨c, r, hcr, -⟩ := numChars_cons m e
        show jsize (Json.num m e) ≤ (numChars m e).length
        rw [hcr]
        simp [jsize]
      | str s => simp [jsize, stringifyVal]
      | arr a =>
        cases a with
        | nil => simp [jsize, jsizeArr, stringifyVal]
        | cons h t =>
          have hb : jsize h ≤ n ∧ jsizeArr t ≤ n := by
            simp only [jsize, jsizeArr] at hsz
            have := jsize_pos h
            have := jsizeArr_pos t
            omega
          have h1 := ih1 h hb.1 (d + 1)
          have h2 := ih2 t hb.2 (d + 1)
          simp only [jsize, jsizeArr, stringifyVal, List.length_append,
            List.length_cons, indentChars, List.length_replicate] at h1 h2 ⊢
          omega
      | obj o =>
        cases o with
        | nil => simp [jsize, jsizeObj, stringifyVal]
        | cons k v t =>
          have hb : jsize v ≤ n ∧ jsizeObj t ≤ n := by
            simp only [jsize, jsizeObj] at hsz
            have := jsize_pos v
            have := jsizeObj_pos t
            omega
          have h1 := ih1 v hb.1 (d + 1)
          have h2 := ih3 t hb.2 (d + 1)
          simp only [jsize, jsizeObj, stringifyVal, List.length_append,
            List.length_cons, indentChars, List.length_replicate] at h1 h2 ⊢
          omega
    · intro a hsz d
      cases a with
      | nil => simp [jsizeArr, stringifyArrRest]
      | cons h t =>
        have hb : jsize h ≤ n ∧ jsizeArr t ≤ n := by
          simp only [jsizeArr] at hsz
          have := jsize_pos h
          have := jsizeArr_pos t
          omega
        have h1 := ih1 h hb.1 d
        have h2 := ih2 t hb.2 d
        simp only [jsizeArr, stringifyArrRest, List.length_append,
          List.length_cons, indentChars, List.length_replicate] at h1 h2 ⊢
        omega
    · intro o hsz d
      cases o with
      | nil => simp [jsizeObj, stringifyObjRest]
      | cons k v t =>
        have hb : jsize v ≤ n ∧ jsizeObj t ≤ n := by
          simp only [jsizeObj] at hsz
          have := jsize_pos v
          have := jsizeObj_pos t
          omega
        have h1 := ih1 v hb.1 d
        have h2 := ih3 t hb.2 d
        simp only [jsizeObj, stringifyObjRest, List.length_append,
          List.length_cons, indentChars, List.length_replicate] at h1 h2 ⊢
        omega

theorem jsize_le_stringifyVal (j : Json) (d : ℕ) :
    jsize j ≤ (stringifyVal j d).length :=
  (stringify_length (jsize j)).1 j le_rfl d

theorem parseValue_stringifyVal (j : Json) (f d : ℕ) (rest : List Char)
    (hf : jsize j ≤ f) (hrest : numSafeB rest = true) :
    parseValue f (stringifyVal j d ++ rest) = some (j, rest) :=
  (parse_stringify f).1 j d rest hf hrest

/-- `JSON.parse` is a left inverse of `JSON.stringify(·, null, 2)`, also
when the serialised document is wrapped in the whitespace the SVG
template puts around it. -/
theorem jsonParse_wrapped (j : Json) :
    jsonParse ("\n" ++ jsonStringify j ++ "\n  ") = some j := by
  have hdata : ("\n" ++ jsonStringify j ++ "\n  ").data =
      '\n' :: (stringifyVal j 0 ++ ['\n', ' ', ' ']) := by
    simp [jsonStringify, String.data_append]
  have hlen : ("\n" ++ jsonStringify j ++ "\n  ").length =
      (stringifyVal j 0).length + 4 := by
    show ("\n" ++ jsonStringify j ++ "\n  ").data.length = _
    rw [hdata]
    simp
  have hsz : jsize j ≤ (stringifyVal j 0).length + 4 + 1 := by
    have := jsize_le_stringifyVal j 0
    omega
  have hmain := parseValue_stringifyVal j ((stringifyVal j 0).length + 4 + 1) 0
    ['\n', ' ', ' '] hsz (by decide)
  have hski : skipWs ('\n' :: (stringifyVal j 0 ++ ['\n', ' ', ' '])) =
      skipWs (stringifyVal j 0 ++ ['\n', ' ', ' ']) :=
    skipWs_cons_ws (by decide) _
  unfold jsonParse
  rw [hdata, hlen, parseValue_skipWs_eq ((stringifyVal j 0).length + 4 + 1) hski,
    hmain]
  show (if skipWs ['\n', ' ', ' '] = [] then some j else none) = some j
  rw [if_pos (show skipWs ['\n', ' ', ' '] = [] from by decide)]

/-- `JSON.parse ∘ JSON.stringify(·, null, 2) = id` on the embedded JSON
model. -/
theorem jsonParse_jsonStringify (j : Json) :
    jsonParse (jsonStringify j) = some j := by
  have hdata : (jsonStringify j).data = stringifyVal j 0 ++ [] := by
    simp [jsonStringify]
  have hlen : (jsonStringify j).length = (stringifyVal j 0).length := rfl
  have hsz : jsize j ≤ (stringifyVal j 0).length + 1 := by
    have := jsize_le_stringifyVal j 0
    omega
  have hmain := parseValue_stringifyVal j ((stringifyVal j 0).length + 1) 0
    [] hsz (by decide)
  unfold jsonParse
  rw [hlen, show (jsonStringify j).data = stringifyVal j 0 ++ [] from by
    simp [jsonStringify], hmain]
  show (if skipWs [] = [] then some j else none) = some j
  rw [if_pos (show skipWs ([] : List Char) = [] from rfl)]

theorem parse_generateModelTSVG (spec : Json) :
    ModelTParser.parse (generateModelTSVG spec) = Except.ok spec := by
  unfold ModelTParser.parse generateModelTSVG getElementById
  simp [jsonParse_wrapped]

/-- C2: for every warehouse specification, extracting the JSON embedded
in the generated SVG (the `modelt-schema` script element) and re-running
the assembler produces the identical SVG: parsing the embedded schema
returns exactly the original spec, hence
`assemble(parse(assemble(spec))) = assemble(spec)`. -/
theorem assemble_parse_assemble_idempotent (spec : Json) :
    ModelTParser.parse (generateModelTSVG spec) = Except.ok spec ∧
    (ModelTParser.parse (generateModelTSVG spec)).map generateModelTSVG =
      Except.ok (generateModelTSVG spec) := by
  refine ⟨parse_generateModelTSVG spec, ?_⟩
  rw [parse_generateModelTSVG spec]
  rfl

end Modesto
